import Mathlib

/-!
Verification development for the securechat relay server (`server.py`).

The shallow embedding below translates the server's global state (the five
module-level dictionaries/sets) into a `ServerState` record, and each
handler that the checked claims touch into a pure Lean function that
returns the updated state together with the list of transport sends it
performs.  Transport handles (websockets) are modelled as `Nat` ids; the
serialized JSON payloads the server sends are modelled by the structured
`Envelope` type.  Time (`time.time()`) is passed explicitly as a `Nat`.
`hashlib.sha256(...).hexdigest()` is embedded as a full executable SHA-256
over the UTF-8 bytes of the input string.
-/

/-! ## Association-list primitives

Python dictionaries are embedded as association lists with the usual
lookup/update/erase operations.  `lookupA` returns the first binding,
`updateA` overwrites an existing binding in place (appending when absent,
matching dict assignment), `eraseA` drops the binding (dict `pop`). -/

def lookupA {κ α : Type} [DecidableEq κ] (k : κ) : List (κ × α) → Option α
  | [] => none
  | p :: rest => if p.1 = k then some p.2 else lookupA k rest

def updateA {κ α : Type} [DecidableEq κ] (k : κ) (v : α) (l : List (κ × α)) :
    List (κ × α) :=
  if l.any (fun p => p.1 = k) then
    l.map (fun p => if p.1 = k then (k, v) else p)
  else
    l ++ [(k, v)]

def eraseA {κ α : Type} [DecidableEq κ] (k : κ) (l : List (κ × α)) : List (κ × α) :=
  l.filter (fun p => ¬ p.1 = k)

/-- Python `set.add` for the member sets: append if not already present. -/
def insertS {α : Type} [DecidableEq α] (x : α) (l : List α) : List α :=
  if x ∈ l then l else l ++ [x]

/-! ## SHA-256 (embedding of `hashlib.sha256(...).hexdigest()`)

32-bit words are plain `Nat`s reduced mod `2^32`; bytes are `Nat`s below
256.  The padding, schedule and compression follow FIPS 180-4. -/

def w32 (x : Nat) : Nat := x % 4294967296

def rotr32 (n x : Nat) : Nat := w32 ((x >>> n) ||| (x <<< (32 - n)))

def smallSigma0 (x : Nat) : Nat := w32 ((rotr32 7 x) ^^^ (rotr32 18 x) ^^^ (x >>> 3))

def smallSigma1 (x : Nat) : Nat := w32 ((rotr32 17 x) ^^^ (rotr32 19 x) ^^^ (x >>> 10))

def bigSigma0 (x : Nat) : Nat := w32 ((rotr32 2 x) ^^^ (rotr32 13 x) ^^^ (rotr32 22 x))

def bigSigma1 (x : Nat) : Nat := w32 ((rotr32 6 x) ^^^ (rotr32 11 x) ^^^ (rotr32 25 x))

def sha256K : List Nat :=
  [1116352408, 1899447441, 3049323471, 3921009573, 961987163,
   1508970993, 2453635748, 2870763221, 3624381080, 310598401,
   607225278, 1426881987, 1925078388, 2162078206, 2614888103,
   3248222580, 3835390401, 4022224774, 264347078, 604807628,
   770255983, 1249150122, 1555081692, 1996064986, 2554220882,
   2821834349, 2952996808, 3210313671, 3336571891, 3584528711,
   113926993, 338241895, 666307205, 773529912, 1294757372,
   1396182291, 1695183700, 1986661051, 2177026350, 2456956037,
   2730485921, 2820302411, 3259730800, 3345764771, 3516065817,
   3600352804, 4094571909, 275423344, 430227734, 506948616,
   659060556, 883997877, 958139571, 1322822218, 1537002063,
   1747873779, 1955562222, 2024104815, 2227730452, 2361852424,
   2428436474, 2756734187, 3204031479, 3329325298]

def sha256Init : List Nat :=
  [1779033703, 3144134277, 1013904242, 2773480762,
   1359893119, 2600822924, 528734635, 1541459225]

/-- Big-endian byte expansion of a value into `k` bytes. -/
def beBytes : Nat → Nat → List Nat
  | 0, _ => []
  | k + 1, v => beBytes k (v / 256) ++ [v % 256]

/-- Append the `0x80` marker, zero padding and the 64-bit bit length. -/
def sha256Pad (msg : List Nat) : List Nat :=
  let len := msg.length
  let zeros := (119 - len % 64) % 64
  msg ++ [0x80] ++ List.replicate zeros 0 ++ beBytes 8 (len * 8)

/-- Group bytes into big-endian 32-bit words. -/
def bytesToWords : List Nat → List Nat
  | b0 :: b1 :: b2 :: b3 :: rest =>
      (((b0 * 256 + b1) * 256 + b2) * 256 + b3) :: bytesToWords rest
  | _ => []

def scheduleStep (w : List Nat) : List Nat :=
  let n := w.length
  w ++ [w32 (smallSigma1 (w.getD (n - 2) 0) + w.getD (n - 7) 0 +
             smallSigma0 (w.getD (n - 15) 0) + w.getD (n - 16) 0)]

def buildSchedule (w : List Nat) : Nat → List Nat
  | 0 => w
  | k + 1 => buildSchedule (scheduleStep w) k

/-- One compression round on the 8-word working state. -/
def sha256Round (s : List Nat) (k w : Nat) : List Nat :=
  let a := s.getD 0 0
  let b := s.getD 1 0
  let c := s.getD 2 0
  let d := s.getD 3 0
  let e := s.getD 4 0
  let f := s.getD 5 0
  let g := s.getD 6 0
  let h := s.getD 7 0
  let ch := w32 ((e &&& f) ^^^ ((4294967295 - e) &&& g))
  let t1 := w32 (h + bigSigma1 e + ch + k + w)
  let maj := w32 ((a &&& b) ^^^ (a &&& c) ^^^ (b &&& c))
  let t2 := w32 (bigSigma0 a + maj)
  [w32 (t1 + t2), a, b, c, w32 (d + t1), e, f, g]

def sha256Rounds : List Nat → List Nat → List Nat → List Nat
  | s, k :: ks, w :: ws => sha256Rounds (sha256Round s k w) ks ws
  | s, _, _ => s

def compressBlock (h : List Nat) (block : List Nat) : List Nat :=
  let w := buildSchedule block 48
  let final := sha256Rounds h sha256K w
  (h.zip final).map (fun p => w32 (p.1 + p.2))

def chunks64 (l : List Nat) : List (List Nat) :=
  if l = [] then [] else l.take 64 :: chunks64 (l.drop 64)
termination_by l.length
decreasing_by
  simp only [List.length_drop]
  exact Nat.sub_lt (List.length_pos.mpr (by assumption)) (by decide)

def sha256Bytes (msg : List Nat) : List Nat :=
  let blocks := (chunks64 (sha256Pad msg)).map bytesToWords
  let hfin := blocks.foldl compressBlock sha256Init
  hfin.foldr (fun w acc => beBytes 4 w ++ acc) []

def hexDigit (n : Nat) : Char :=
  if n < 10 then Char.ofNat (48 + n) else Char.ofNat (87 + n)

def bytesToHex (bs : List Nat) : String :=
  String.mk (bs.foldr (fun b acc => hexDigit (b / 16) :: hexDigit (b % 16) :: acc) [])

/-- UTF-8 encoding of one character (Python `str.encode()`). -/
def utf8EncodeChar (c : Char) : List Nat :=
  let n := c.toNat
  if n < 0x80 then [n]
  else if n < 0x800 then
    [0xC0 ||| (n >>> 6), 0x80 ||| (n &&& 0x3F)]
  else if n < 0x10000 then
    [0xE0 ||| (n >>> 12), 0x80 ||| ((n >>> 6) &&& 0x3F), 0x80 ||| (n &&& 0x3F)]
  else
    [0xF0 ||| (n >>> 18), 0x80 ||| ((n >>> 12) &&& 0x3F),
     0x80 ||| ((n >>> 6) &&& 0x3F), 0x80 ||| (n &&& 0x3F)]

def strBytes (s : String) : List Nat :=
  s.data.foldr (fun c acc => utf8EncodeChar c ++ acc) []

/-- Embedding of `hash_message` (server.py lines 55-56):
`hashlib.sha256((chat_id + content).encode()).hexdigest()` — the digest of
the plain concatenation of room id and content, with no separator. -/
def hash_message (chat_id content : String) : String :=
  bytesToHex (sha256Bytes (strBytes (chat_id ++ content)))

/-! ## Data model

`Envelope` is the structured form of the JSON payloads the server writes to
a websocket.  The constructors `forceDisconnect`, `key`, `chatMsg`,
`created`, `pubkeyStored` and `error` are exactly the dictionaries the
code serializes; `typedMessage` is the `{type:"message", from, room_id,
content}` relay form that the specification (section 6) describes — the
code never constructs it, and claim C5 compares the two. -/

inductive Envelope where
  | forceDisconnect (message : String)
  | key (nickname pubkey : String)
  | chatMsg (chat_id content : String)
  | created (chat_id : String)
  | pubkeyStored (forCount : Nat)
  | error (message : String)
  | typedMessage (sender room_id content : String)
deriving DecidableEq, Repr

/-- Modelled from the spec: the relay envelope shape that section 6 of the
specification prescribes for a rebroadcast message
(`{type:"message", from: identity, room_id, content}`). -/
def specRelayEnvelope (sender room_id content : String) : Envelope :=
  Envelope.typedMessage sender room_id content

def Envelope.isError : Envelope → Bool
  | .error _ => true
  | _ => false

/-- The five module-level structures of server.py (lines 20-24):
`clients` (websocket → nickname), `nickname_to_ws`, `client_keys`,
`chat_rooms` (chat id → member set) and `recent_messages`
(set of (hash, timestamp) pairs). -/
structure ServerState where
  clients : List (Nat × String)
  nickname_to_ws : List (String × Nat)
  client_keys : List (String × String)
  chat_rooms : List (String × List String)
  recent_messages : List (String × Nat)
deriving Repr, DecidableEq

def MESSAGE_CACHE_TIME : Nat := 60

/-- Member snapshot of a room (`chat_rooms.get(chat_id, set())`). -/
def membersOf (st : ServerState) (chat_id : String) : List String :=
  (lookupA chat_id st.chat_rooms).getD []

/-! ## Fanout primitives -/

/-- Embedding of `safe_send` (lines 29-40): up to three attempts, a short sleep between
failed ones.  `attemptOk i` is the outcome the transport would give the
`i`-th attempt; the result is (delivered?, attempts used). -/
def safe_send (attemptOk : Nat → Bool) : Bool × Nat :=
  if attemptOk 0 then (true, 1)
  else if attemptOk 1 then (true, 2)
  else if attemptOk 2 then (true, 3)
  else (false, 3)

/-- Embedding of `broadcast_to_chat` (lines 42-53): snapshot the member set, then send
the payload to every member except `exclude_nick` that has a registered
websocket.  The code ignores `safe_send`'s result, so the list of sends it
attempts does not depend on transport outcomes; this function returns that
list. -/
def broadcast_go (n2w : List (String × Nat)) (payload : Envelope)
    (exclude_nick : Option String) : List String → List (Nat × Envelope)
  | [] => []
  | nick :: rest =>
    if some nick = exclude_nick then broadcast_go n2w payload exclude_nick rest
    else
      match lookupA nick n2w with
      | some ws => (ws, payload) :: broadcast_go n2w payload exclude_nick rest
      | none => broadcast_go n2w payload exclude_nick rest

def broadcast_to_chat (st : ServerState) (chat_id : String) (payload : Envelope)
    (exclude_nick : Option String) : List (Nat × Envelope) :=
  broadcast_go st.nickname_to_ws payload exclude_nick (membersOf st chat_id)

/-- Variant of `broadcast_to_chat` that additionally records whether each per-target
`safe_send` succeeded under the transport oracle `sendOk ws attempt`. -/
def broadcast_result_go (n2w : List (String × Nat)) (payload : Envelope)
    (exclude_nick : Option String) (sendOk : Nat → Nat → Bool) :
    List String → List (Nat × Envelope × Bool)
  | [] => []
  | nick :: rest =>
    if some nick = exclude_nick then broadcast_result_go n2w payload exclude_nick sendOk rest
    else
      match lookupA nick n2w with
      | some ws =>
        (ws, payload, (safe_send (sendOk ws)).1) ::
          broadcast_result_go n2w payload exclude_nick sendOk rest
      | none => broadcast_result_go n2w payload exclude_nick sendOk rest

def broadcast_to_chat_result (st : ServerState) (chat_id : String) (payload : Envelope)
    (exclude_nick : Option String) (sendOk : Nat → Nat → Bool) :
    List (Nat × Envelope × Bool) :=
  broadcast_result_go st.nickname_to_ws payload exclude_nick sendOk (membersOf st chat_id)

/-- One sweep of `cleanup_message_cache` (lines 58-64): drop every cache
entry strictly older than `MESSAGE_CACHE_TIME`. -/
def cleanup_message_cache_step (cache : List (String × Nat)) (now : Nat) :
    List (String × Nat) :=
  cache.filter (fun m => ¬ (now - m.2 > MESSAGE_CACHE_TIME))

/-! ## Disconnection cascade -/

/-- Body of one iteration of `remove_from_all_chats` (lines 73-79): discard
`nickname` from the room if present and, when members remain and `notify`
is set, broadcast the system disconnect notice into the room. -/
def removeOneChat (st : ServerState) (nickname : String) (notify : Bool)
    (chat_id : String) : ServerState × List (Nat × Envelope) :=
  match lookupA chat_id st.chat_rooms with
  | none => (st, [])
  | some mems =>
    if nickname ∈ mems then
      let mems' := mems.filter (fun m => ¬ m = nickname)
      let st' := { st with chat_rooms := updateA chat_id mems' st.chat_rooms }
      let sends :=
        if notify && !mems'.isEmpty then
          broadcast_to_chat st' chat_id
            (Envelope.chatMsg chat_id
              ("[Sistema] L'utente " ++ nickname ++ " si è disconnesso!"))
            (some nickname)
        else []
      (st', sends)
    else (st, [])

def remove_from_all_chats_go (nickname : String) (notify : Bool) :
    List String → ServerState → ServerState × List (Nat × Envelope)
  | [], st => (st, [])
  | c :: rest, st =>
    let r1 := removeOneChat st nickname notify c
    let r2 := remove_from_all_chats_go nickname notify rest r1.1
    (r2.1, r1.2 ++ r2.2)

/-- Embedding of `remove_from_all_chats` (lines 67-79): iterate over a snapshot of the
room table, discarding `nickname` everywhere. -/
def remove_from_all_chats (st : ServerState) (nickname : String) (notify : Bool) :
    ServerState × List (Nat × Envelope) :=
  remove_from_all_chats_go nickname notify (st.chat_rooms.map Prod.fst) st

/-- Embedding of `disconnect_client` (lines 81-94): pop the websocket from `clients`;
if it was mapped, drop the nickname from `nickname_to_ws` and
`client_keys`, then cascade through `remove_from_all_chats`. -/
def disconnect_client (st : ServerState) (ws : Nat) (notify : Bool) :
    ServerState × List (Nat × Envelope) :=
  match lookupA ws st.clients with
  | none => (st, [])
  | some nickname =>
    let st1 : ServerState :=
      { st with
        clients := eraseA ws st.clients
        nickname_to_ws := eraseA nickname st.nickname_to_ws
        client_keys := eraseA nickname st.client_keys }
    remove_from_all_chats st1 nickname notify

/-! ## `handle_json_command` branches -/

/-- Inner loop of the `public_key` fanout (lines 197-206): walk one room's
member snapshot, sending the key once to every member that is not the
publisher, was not already served, and has a registered websocket. -/
def fanout_room_go (n2w : List (String × Nat)) (nickname pem : String) :
    List String → List String → List String × List (Nat × Envelope)
  | [], sent_to => (sent_to, [])
  | m :: rest, sent_to =>
    if m = nickname then fanout_room_go n2w nickname pem rest sent_to
    else if m ∈ sent_to then fanout_room_go n2w nickname pem rest sent_to
    else
      match lookupA m n2w with
      | some ws =>
        let r := fanout_room_go n2w nickname pem rest (insertS m sent_to)
        (r.1, (ws, Envelope.key nickname pem) :: r.2)
      | none => fanout_room_go n2w nickname pem rest sent_to

/-- Outer loop of the `public_key` fanout (lines 194-206): per shared room,
snapshot its members and run the inner loop, threading `sent_to`. -/
def fanout_key_go (rooms : List (String × List String)) (n2w : List (String × Nat))
    (nickname pem : String) :
    List String → List String → List String × List (Nat × Envelope)
  | [], sent_to => (sent_to, [])
  | c :: rest, sent_to =>
    let r1 := fanout_room_go n2w nickname pem ((lookupA c rooms).getD []) sent_to
    let r2 := fanout_key_go rooms n2w nickname pem rest r1.1
    (r2.1, r1.2 ++ r2.2)

/-- Embedding of `my_chats` (line 190): ids of the rooms whose member set contains
`nickname`. -/
def myChats (rooms : List (String × List String)) (nickname : String) : List String :=
  (rooms.filter (fun p => nickname ∈ p.2)).map Prod.fst

/-- The `public_key` branch of `handle_json_command` (lines 182-208): store
the key unconditionally, fan it out once per peer sharing at least one
room, then acknowledge with `pubkey_stored` carrying the number of peers
served. -/
def handle_public_key_cmd (st : ServerState) (nickname : String) (pem : Option String)
    (ws : Nat) : ServerState × List (Nat × Envelope) :=
  match pem with
  | none => (st, [])
  | some p =>
    if p = "" then (st, [])
    else
      let st' := { st with client_keys := updateA nickname p st.client_keys }
      let chats := myChats st'.chat_rooms nickname
      let r := fanout_key_go st'.chat_rooms st'.nickname_to_ws nickname p chats []
      (st', r.2 ++ [(ws, Envelope.pubkeyStored r.1.length)])

/-- The `message` branch of `handle_json_command` (lines 210-223): guard on
a non-empty chat id and present content, look the fingerprint up in the
cache (hash membership only — timestamps are not consulted), record it and
relay `{"chat_id", "content"}` to the room excluding the sender. -/
def handle_message_cmd (st : ServerState) (nickname : String)
    (chat_id content : Option String) (now : Nat) : ServerState × List (Nat × Envelope) :=
  match chat_id, content with
  | some c, some x =>
    if c = "" then (st, [])
    else
      let h := hash_message c x
      if st.recent_messages.any (fun m => m.1 == h) then (st, [])
      else
        let st' := { st with
          recent_messages :=
            if (h, now) ∈ st.recent_messages then st.recent_messages
            else st.recent_messages ++ [(h, now)] }
        (st', broadcast_to_chat st' c (Envelope.chatMsg c x) (some nickname))
  | _, _ => (st, [])

/-- Variant of `handle_message_cmd` with the per-target `safe_send` outcomes recorded
under the transport oracle `sendOk`. -/
def handle_message_cmd_result (st : ServerState) (nickname : String)
    (chat_id content : Option String) (now : Nat) (sendOk : Nat → Nat → Bool) :
    ServerState × List (Nat × Envelope × Bool) :=
  match chat_id, content with
  | some c, some x =>
    if c = "" then (st, [])
    else
      let h := hash_message c x
      if st.recent_messages.any (fun m => m.1 == h) then (st, [])
      else
        let st' := { st with
          recent_messages :=
            if (h, now) ∈ st.recent_messages then st.recent_messages
            else st.recent_messages ++ [(h, now)] }
        (st', broadcast_to_chat_result st' c (Envelope.chatMsg c x) (some nickname) sendOk)
  | _, _ => (st, [])

/-- The typeless-frame branch of the main receive loop (lines 336-355): a
frame carrying `chat_id` and `content` with no `type` is dedup-checked,
recorded, the sender is added to the room (which is created if absent),
and the payload is relayed to the room excluding the sender. -/
def handle_legacy_message (st : ServerState) (nickname : String)
    (chat_id content : Option String) (now : Nat) : ServerState × List (Nat × Envelope) :=
  match chat_id, content with
  | some c, some x =>
    if c = "" then (st, [])
    else
      let h := hash_message c x
      if st.recent_messages.any (fun m => m.1 == h) then (st, [])
      else
        let cache' :=
          if (h, now) ∈ st.recent_messages then st.recent_messages
          else st.recent_messages ++ [(h, now)]
        let mems' := insertS nickname (membersOf st c)
        let st' := { st with
          recent_messages := cache'
          chat_rooms := updateA c mems' st.chat_rooms }
        (st', broadcast_to_chat st' c (Envelope.chatMsg c x) (some nickname))
  | _, _ => (st, [])

/-- The `connect` branch of `handle_json_command` (lines 108-133): join
every listed chat, replay the keys of the co-members of each chat to the
new client, then broadcast a join notice per chat. -/
def handle_connect_cmd (st : ServerState) (nickname : String) (ws : Nat)
    (chats : List String) : ServerState × List (Nat × Envelope) :=
  let st1 := chats.foldl
    (fun s c => { s with
      chat_rooms := updateA c (insertS nickname (membersOf s c)) s.chat_rooms }) st
  let keySends := chats.foldr
    (fun c acc =>
      ((membersOf st1 c).filterMap (fun m =>
        if m = nickname then none
        else
          match lookupA m st1.client_keys with
          | some k => if k = "" then none else some (ws, Envelope.key m k)
          | none => none)) ++ acc) []
  let notices := chats.foldr
    (fun c acc =>
      broadcast_to_chat st1 c
        (Envelope.chatMsg c
          ("[Sistema] L'utente " ++ nickname ++ " si è connesso alla chat " ++ c ++ "!"))
        (some nickname) ++ acc) []
  (st1, keySends ++ notices)

/-! ## Connection handshake (`handler`, lines 245-284) -/

/-- Outcome of `json.loads` on the first frame: a `connect` command, any
other text, or binary data. -/
inductive FirstFrame where
  | connectCmd (nickname : Option String) (chats : List String)
  | otherText (s : String)
  | otherBinary
deriving Repr

def fallbackNick (now : Nat) : String := "user_" ++ toString now

/-- Python's `first.strip()` is falsy exactly when every character of the
frame is whitespace. -/
def isBlankStr (s : String) : Bool := s.data.all (fun c => c.isWhitespace)

/-- Result of running one protocol step: either the step runs to the end
(`completed`, carrying the new state, the sends and the websockets the
server closed), or the handler task blocks forever on a lock it already
holds (`deadlocked`, carrying the state and sends at the moment it
blocks — nothing after that point ever executes). -/
inductive StepOutcome where
  | completed (st : ServerState) (sends : List (Nat × Envelope)) (closes : List Nat)
  | deadlocked (st : ServerState) (sends : List (Nat × Envelope))
deriving Repr, DecidableEq

def StepOutcome.sends : StepOutcome → List (Nat × Envelope)
  | .completed _ sends _ => sends
  | .deadlocked _ sends => sends

def StepOutcome.closes : StepOutcome → List Nat
  | .completed _ _ closes => closes
  | .deadlocked _ _ => []

/-- The registration block that both handshake modes share (lines 254-265
and 273-283).  The whole block runs inside `async with lock:`.  When the
nickname is free, or already bound to this same websocket, the block
installs `clients[websocket] = nickname` and `nickname_to_ws[nickname] =
websocket` and completes.  When the nickname is bound to a DIFFERENT
websocket, the code sends `force_disconnect` to the old socket and then
`await`s `remove_from_all_chats`, which opens with `async with lock:`
(line 71) on the same non-reentrant `asyncio.Lock` the block already
holds: the task deadlocks there (the `except Exception` arm cannot fire —
waiting on a lock raises nothing), so the room purge, `old.close()`
(lines 261/279) and the two map assignments below the `await` never
execute.  The takeover branch therefore yields `deadlocked` with the
state untouched and only the `force_disconnect` notice sent. -/
def register_ws (st : ServerState) (nickname : String) (ws : Nat) : StepOutcome :=
  match lookupA nickname st.nickname_to_ws with
  | some old =>
    if old = ws then
      .completed
        { st with
            clients := updateA ws nickname st.clients
            nickname_to_ws := updateA nickname ws st.nickname_to_ws } [] []
    else
      .deadlocked st [(old, Envelope.forceDisconnect "Connessione concorrente")]
  | none =>
    .completed
      { st with
          clients := updateA ws nickname st.clients
          nickname_to_ws := updateA nickname ws st.nickname_to_ws } [] []

/-- Nickname derived from the first frame (lines 252 and 271), with the
fallback `user_<timestamp>` when the frame supplies no usable identity. -/
def firstFrameNick (first : FirstFrame) (now : Nat) : String :=
  match first with
  | .connectCmd nickOpt _ =>
    match nickOpt with
    | some n => if n = "" then fallbackNick now else n
    | none => fallbackNick now
  | .otherText s => if isBlankStr s then fallbackNick now else s
  | .otherBinary => fallbackNick now

/-- First-frame processing of `handler` (lines 245-284): derive a nickname
(falling back to `user_<timestamp>` when the frame supplies none), run the
registration block and, in `connect` mode, the connect command — the
latter only when registration completed, since a deadlocked registration
never returns to the handler.  The second component is the nickname the
session was (or would have been) registered under.  The legacy mode's
optional immediate second frame (a PEM or a JSON command, lines 286-310)
arrives after identification and is modelled by the per-frame handlers
above, not by this step. -/
def handleFirstFrame (st : ServerState) (ws : Nat) (first : FirstFrame) (now : Nat) :
    StepOutcome × String :=
  let nickname := firstFrameNick first now
  match first with
  | .connectCmd _ chats =>
    match register_ws st nickname ws with
    | .completed st1 sends1 closes =>
      let r2 := handle_connect_cmd st1 nickname ws chats
      (.completed r2.1 (sends1 ++ r2.2) closes, nickname)
    | .deadlocked st1 sends1 => (.deadlocked st1 sends1, nickname)
  | .otherText _ => (register_ws st nickname ws, nickname)
  | .otherBinary => (register_ws st nickname ws, nickname)

/-! ## Association-list lemmas -/

theorem lookupA_map_replace_self {κ α : Type} [DecidableEq κ] {k : κ} {v : α}
    {l : List (κ × α)} (h : l.any (fun p => p.1 = k) = true) :
    lookupA k (l.map (fun p => if p.1 = k then (k, v) else p)) = some v := by
  induction l with
  | nil => simp at h
  | cons p rest ih =>
    by_cases h1 : p.1 = k
    · simp [lookupA, h1]
    · simp only [List.any_cons, Bool.or_eq_true, decide_eq_true_eq] at h
      rcases h with h | h
      · exact absurd h h1
      · simp only [List.map_cons, if_neg h1, lookupA, if_neg h1]
        exact ih h

theorem lookupA_map_replace_other {κ α : Type} [DecidableEq κ] {k k' : κ} {v : α}
    (hne : ¬ k' = k) (l : List (κ × α)) :
    lookupA k' (l.map (fun p => if p.1 = k then (k, v) else p)) = lookupA k' l := by
  induction l with
  | nil => rfl
  | cons p rest ih =>
    by_cases h1 : p.1 = k
    · have hk : ¬ k = k' := fun h => hne h.symm
      have h2 : ¬ p.1 = k' := by rw [h1]; exact hk
      simp only [List.map_cons, if_pos h1, lookupA, if_neg hk, if_neg h2, ih]
    · simp only [List.map_cons, if_neg h1, lookupA]
      by_cases h2 : p.1 = k'
      · simp [h2]
      · simp [h2, ih]

theorem lookupA_append_single_self {κ α : Type} [DecidableEq κ] {k : κ} {v : α}
    {l : List (κ × α)} (h : l.any (fun p => p.1 = k) = false) :
    lookupA k (l ++ [(k, v)]) = some v := by
  induction l with
  | nil => simp [lookupA]
  | cons p rest ih =>
    simp only [List.any_cons, Bool.or_eq_false_iff, decide_eq_false_iff_not] at h
    simp only [List.cons_append, lookupA, if_neg h.1]
    exact ih (by simpa using h.2)

theorem lookupA_append_single_other {κ α : Type} [DecidableEq κ] {k k' : κ} {v : α}
    (hne : ¬ k' = k) (l : List (κ × α)) :
    lookupA k' (l ++ [(k, v)]) = lookupA k' l := by
  have hk : ¬ k = k' := fun h => hne h.symm
  induction l with
  | nil => simp [lookupA, hk]
  | cons p rest ih =>
    simp only [List.cons_append, lookupA]
    by_cases h2 : p.1 = k'
    · simp [h2]
    · simp [h2, ih]

theorem lookupA_updateA_self {κ α : Type} [DecidableEq κ] (k : κ) (v : α)
    (l : List (κ × α)) : lookupA k (updateA k v l) = some v := by
  unfold updateA
  by_cases hp : l.any (fun p => p.1 = k)
  · rw [if_pos hp]; exact lookupA_map_replace_self hp
  · rw [if_neg hp]
    exact lookupA_append_single_self (by simp only [Bool.not_eq_true] at hp; exact hp)

theorem lookupA_updateA_other {κ α : Type} [DecidableEq κ] {k k' : κ} (v : α)
    (l : List (κ × α)) (hne : ¬ k' = k) :
    lookupA k' (updateA k v l) = lookupA k' l := by
  unfold updateA
  by_cases hp : l.any (fun p => p.1 = k)
  · rw [if_pos hp]; exact lookupA_map_replace_other hne l
  · rw [if_neg hp]; exact lookupA_append_single_other hne l

theorem lookupA_mem {κ α : Type} [DecidableEq κ] {k : κ} {v : α} {l : List (κ × α)}
    (h : lookupA k l = some v) : (k, v) ∈ l := by
  induction l with
  | nil => simp [lookupA] at h
  | cons p rest ih =>
    obtain ⟨p1, p2⟩ := p
    rw [lookupA] at h
    by_cases hp : p1 = k
    · rw [if_pos hp] at h
      injection h with h2
      subst hp
      subst h2
      exact List.mem_cons_self _ _
    · rw [if_neg hp] at h
      exact List.mem_cons_of_mem _ (ih h)

theorem lookupA_mem_keys {κ α : Type} [DecidableEq κ] {k : κ} {v : α}
    {l : List (κ × α)} (h : lookupA k l = some v) : k ∈ l.map Prod.fst := by
  have := lookupA_mem h
  exact List.mem_map.mpr ⟨(k, v), this, rfl⟩

theorem lookupA_eraseA_self {κ α : Type} [DecidableEq κ] (k : κ) (l : List (κ × α)) :
    lookupA k (eraseA k l) = none := by
  induction l with
  | nil => rfl
  | cons p rest ih =>
    unfold eraseA at ih ⊢
    by_cases hp : p.1 = k
    · simpa [List.filter_cons, hp] using ih
    · simpa [List.filter_cons, hp, lookupA] using ih

theorem mem_eraseA {κ α : Type} [DecidableEq κ] {k : κ} {p : κ × α} {l : List (κ × α)}
    (h : p ∈ eraseA k l) : p ∈ l ∧ ¬ p.1 = k := by
  unfold eraseA at h
  have := List.mem_filter.mp h
  exact ⟨this.1, by simpa using this.2⟩

theorem vals_nodup_inj {κ α : Type} [DecidableEq κ] {l : List (κ × α)}
    (hnd : (l.map Prod.snd).Nodup) {a b : κ} {w : α}
    (ha : (a, w) ∈ l) (hb : (b, w) ∈ l) : a = b := by
  induction l with
  | nil => simp at ha
  | cons p rest ih =>
    simp only [List.map_cons, List.nodup_cons] at hnd
    rcases List.mem_cons.mp ha with ha' | ha' <;>
      rcases List.mem_cons.mp hb with hb' | hb'
    · exact congrArg Prod.fst (ha'.trans hb'.symm)
    · exfalso
      apply hnd.1
      have : w = p.2 := by rw [← ha']
      rw [this] at hb'
      exact List.mem_map.mpr ⟨(b, p.2), hb', rfl⟩
    · exfalso
      apply hnd.1
      have : w = p.2 := by rw [← hb']
      rw [this] at ha'
      exact List.mem_map.mpr ⟨(a, p.2), ha', rfl⟩
    · exact ih hnd.2 ha' hb'

theorem lookupA_inj_of_vals_nodup {κ α : Type} [DecidableEq κ] {l : List (κ × α)}
    (hnd : (l.map Prod.snd).Nodup) {a b : κ} {w : α}
    (ha : lookupA a l = some w) (hb : lookupA b l = some w) : a = b :=
  vals_nodup_inj hnd (lookupA_mem ha) (lookupA_mem hb)

theorem mem_insertS {α : Type} [DecidableEq α] (x y : α) (l : List α) :
    x ∈ insertS y l ↔ x = y ∨ x ∈ l := by
  unfold insertS
  by_cases hy : y ∈ l
  · rw [if_pos hy]
    constructor
    · exact fun h => Or.inr h
    · rintro (rfl | h)
      · exact hy
      · exact h
  · rw [if_neg hy]
    simp [List.mem_append, or_comm]

theorem self_mem_insertS {α : Type} [DecidableEq α] (x : α) (l : List α) :
    x ∈ insertS x l := (mem_insertS x x l).mpr (Or.inl rfl)

/-- Updating via `updateA` on a key that is present leaves the key list unchanged. -/
theorem updateA_keys_of_present {κ α : Type} [DecidableEq κ] {k : κ} (v : α)
    {l : List (κ × α)} (h : l.any (fun p => p.1 = k) = true) :
    (updateA k v l).map Prod.fst = l.map Prod.fst := by
  unfold updateA
  rw [if_pos h, List.map_map]
  apply List.map_congr_left
  intro p _
  by_cases hp : p.1 = k
  · simp [hp]
  · simp [hp]

theorem any_key_of_lookupA_some {κ α : Type} [DecidableEq κ] {k : κ} {v : α}
    {l : List (κ × α)} (h : lookupA k l = some v) :
    l.any (fun p => p.1 = k) = true := by
  have := lookupA_mem h
  simp only [List.any_eq_true]
  exact ⟨(k, v), this, by simp⟩

/-! ## Broadcast lemmas -/

theorem broadcast_go_payload {n2w : List (String × Nat)} {payload : Envelope}
    {ex : Option String} {mems : List String} {q : Nat × Envelope}
    (h : q ∈ broadcast_go n2w payload ex mems) : q.2 = payload := by
  induction mems with
  | nil => simp [broadcast_go] at h
  | cons y rest ih =>
    rw [broadcast_go] at h
    by_cases hy : some y = ex
    · rw [if_pos hy] at h; exact ih h
    · rw [if_neg hy] at h
      cases hly : lookupA y n2w with
      | none => rw [hly] at h; exact ih h
      | some w =>
        rw [hly] at h
        rcases List.mem_cons.mp h with h' | h'
        · rw [h']
        · exact ih h'
/-- In a broadcast, the websocket of `m` receives the payload exactly
`mems.count m` times (zero if `m` is the excluded nickname), provided no
two nicknames share a websocket. -/
theorem broadcast_go_count {n2w : List (String × Nat)} (payload : Envelope)
    (ex : Option String) {m : String} {wsm : Nat}
    (hvals : (n2w.map Prod.snd).Nodup)
    (hm : lookupA m n2w = some wsm) :
    ∀ mems : List String,
      (broadcast_go n2w payload ex mems).count (wsm, payload) =
        if some m = ex then 0 else mems.count m := by
  intro mems
  induction mems with
  | nil => by_cases hx : some m = ex <;> simp [broadcast_go, hx]
  | cons y rest ih =>
    rw [broadcast_go]
    by_cases hx : some m = ex
    · rw [if_pos hx] at ih ⊢
      by_cases hy : some y = ex
      · rw [if_pos hy]; exact ih
      · rw [if_neg hy]
        have hym : ¬ y = m := fun h => hy (h ▸ hx)
        cases hly : lookupA y n2w with
        | none => exact ih
        | some w =>
          have hwm : ¬ ((w, payload) : Nat × Envelope) = (wsm, payload) := by
            intro hq
            have hw : w = wsm := congrArg Prod.fst hq
            subst hw
            exact hym (lookupA_inj_of_vals_nodup hvals hly hm)
          simp [List.count_cons, ih, hwm]
    · rw [if_neg hx] at ih ⊢
      by_cases hy : some y = ex
      · rw [if_pos hy]
        have hym : ¬ y = m := fun h => hx (h ▸ hy)
        have hmy : ¬ m = y := fun h => hym h.symm
        simp [ih, List.count_cons, hym, hmy]
      · rw [if_neg hy]
        cases hly : lookupA y n2w with
        | none =>
          have hym : ¬ y = m := by
            intro h
            rw [h, hm] at hly
            exact Option.noConfusion hly
          have hmy : ¬ m = y := fun h => hym h.symm
          simp [ih, List.count_cons, hym, hmy]
        | some w =>
          by_cases hym : y = m
          · have hw : wsm = w := by
              rw [hym, hm] at hly
              exact Option.some_inj.mp hly
            simp [List.count_cons, ih, ← hw, hym]
          · have hwm : ¬ w = wsm := by
              intro h
              subst h
              exact hym (lookupA_inj_of_vals_nodup hvals hly hm)
            have hmw : ¬ wsm = w := fun h => hwm h.symm
            have hmy : ¬ m = y := fun h => hym h.symm
            simp [List.count_cons, ih, Prod.ext_iff, hwm, hym, hmw, hmy]

/-! ## Cascade-teardown lemmas -/

/-- Predicate: `nickname` does not occur in room `c` of `st`. -/
def CleanAt (n : String) (st : ServerState) (c : String) : Prop :=
  ∀ mems, lookupA c st.chat_rooms = some mems → n ∉ mems

theorem removeOneChat_eq_none {st : ServerState} {n c : String} (notify : Bool)
    (hcl : lookupA c st.chat_rooms = none) :
    removeOneChat st n notify c = (st, []) := by
  unfold removeOneChat
  rw [hcl]

theorem removeOneChat_eq_not_mem {st : ServerState} {n c : String} (notify : Bool)
    {mems : List String} (hcl : lookupA c st.chat_rooms = some mems) (h : n ∉ mems) :
    removeOneChat st n notify c = (st, []) := by
  unfold removeOneChat
  rw [hcl]
  dsimp only
  rw [if_neg h]

theorem removeOneChat_eq_mem {st : ServerState} {n c : String} (notify : Bool)
    {mems : List String} (hcl : lookupA c st.chat_rooms = some mems) (h : n ∈ mems) :
    (removeOneChat st n notify c).1 =
      { st with chat_rooms := updateA c (mems.filter (fun m => ¬ m = n)) st.chat_rooms } := by
  unfold removeOneChat
  rw [hcl]
  dsimp only
  rw [if_pos h]

theorem removeOneChat_clients (st : ServerState) (n : String) (notify : Bool)
    (c : String) : ((removeOneChat st n notify c).1).clients = st.clients := by
  cases hcl : lookupA c st.chat_rooms with
  | none => rw [removeOneChat_eq_none notify hcl]
  | some mems =>
    by_cases h : n ∈ mems
    · rw [removeOneChat_eq_mem notify hcl h]
    · rw [removeOneChat_eq_not_mem notify hcl h]

theorem removeOneChat_n2w (st : ServerState) (n : String) (notify : Bool)
    (c : String) : ((removeOneChat st n notify c).1).nickname_to_ws = st.nickname_to_ws := by
  cases hcl : lookupA c st.chat_rooms with
  | none => rw [removeOneChat_eq_none notify hcl]
  | some mems =>
    by_cases h : n ∈ mems
    · rw [removeOneChat_eq_mem notify hcl h]
    · rw [removeOneChat_eq_not_mem notify hcl h]

theorem removeOneChat_ckeys (st : ServerState) (n : String) (notify : Bool)
    (c : String) : ((removeOneChat st n notify c).1).client_keys = st.client_keys := by
  cases hcl : lookupA c st.chat_rooms with
  | none => rw [removeOneChat_eq_none notify hcl]
  | some mems =>
    by_cases h : n ∈ mems
    · rw [removeOneChat_eq_mem notify hcl h]
    · rw [removeOneChat_eq_not_mem notify hcl h]

theorem removeOneChat_recent (st : ServerState) (n : String) (notify : Bool)
    (c : String) : ((removeOneChat st n notify c).1).recent_messages = st.recent_messages := by
  cases hcl : lookupA c st.chat_rooms with
  | none => rw [removeOneChat_eq_none notify hcl]
  | some mems =>
    by_cases h : n ∈ mems
    · rw [removeOneChat_eq_mem notify hcl h]
    · rw [removeOneChat_eq_not_mem notify hcl h]

theorem removeOneChat_room_keys (st : ServerState) (n : String) (notify : Bool)
    (c : String) :
    ((removeOneChat st n notify c).1).chat_rooms.map Prod.fst =
      st.chat_rooms.map Prod.fst := by
  cases hcl : lookupA c st.chat_rooms with
  | none => rw [removeOneChat_eq_none notify hcl]
  | some mems =>
    by_cases h : n ∈ mems
    · rw [removeOneChat_eq_mem notify hcl h]
      exact updateA_keys_of_present _ (any_key_of_lookupA_some hcl)
    · rw [removeOneChat_eq_not_mem notify hcl h]

theorem removeOneChat_lookup_other (st : ServerState) (n : String) (notify : Bool)
    {c c' : String} (hne : ¬ c' = c) :
    lookupA c' ((removeOneChat st n notify c).1).chat_rooms =
      lookupA c' st.chat_rooms := by
  cases hcl : lookupA c st.chat_rooms with
  | none => rw [removeOneChat_eq_none notify hcl]
  | some mems =>
    by_cases h : n ∈ mems
    · rw [removeOneChat_eq_mem notify hcl h]
      exact lookupA_updateA_other _ _ hne
    · rw [removeOneChat_eq_not_mem notify hcl h]

theorem removeOneChat_cleanAt_self (st : ServerState) (n : String) (notify : Bool)
    (c : String) : CleanAt n (removeOneChat st n notify c).1 c := by
  intro mems' hl
  cases hcl : lookupA c st.chat_rooms with
  | none =>
    rw [removeOneChat_eq_none notify hcl] at hl
    rw [hcl] at hl
    exact Option.noConfusion hl
  | some mems =>
    by_cases h : n ∈ mems
    · rw [removeOneChat_eq_mem notify hcl h] at hl
      simp only [lookupA_updateA_self, Option.some_inj] at hl
      rw [← hl]
      intro hmem
      simpa using (List.mem_filter.mp hmem).2
    · rw [removeOneChat_eq_not_mem notify hcl h] at hl
      rw [hcl, Option.some_inj] at hl
      rw [← hl]
      exact h

theorem removeOneChat_cleanAt (st : ServerState) (n : String) (notify : Bool)
    (c c' : String) (hc : CleanAt n st c') :
    CleanAt n (removeOneChat st n notify c).1 c' := by
  by_cases hcc : c' = c
  · subst hcc
    exact removeOneChat_cleanAt_self st n notify c'
  · intro mems' hl
    rw [removeOneChat_lookup_other st n notify hcc] at hl
    exact hc mems' hl

theorem go_clients (n : String) (notify : Bool) :
    ∀ (chats : List String) (st : ServerState),
      ((remove_from_all_chats_go n notify chats st).1).clients = st.clients
  | [], st => rfl
  | c :: rest, st => by
    rw [remove_from_all_chats_go]
    rw [go_clients n notify rest _, removeOneChat_clients]

theorem go_n2w (n : String) (notify : Bool) :
    ∀ (chats : List String) (st : ServerState),
      ((remove_from_all_chats_go n notify chats st).1).nickname_to_ws = st.nickname_to_ws
  | [], st => rfl
  | c :: rest, st => by
    rw [remove_from_all_chats_go]
    rw [go_n2w n notify rest _, removeOneChat_n2w]

theorem go_ckeys (n : String) (notify : Bool) :
    ∀ (chats : List String) (st : ServerState),
      ((remove_from_all_chats_go n notify chats st).1).client_keys = st.client_keys
  | [], st => rfl
  | c :: rest, st => by
    rw [remove_from_all_chats_go]
    rw [go_ckeys n notify rest _, removeOneChat_ckeys]

theorem go_recent (n : String) (notify : Bool) :
    ∀ (chats : List String) (st : ServerState),
      ((remove_from_all_chats_go n notify chats st).1).recent_messages = st.recent_messages
  | [], st => rfl
  | c :: rest, st => by
    rw [remove_from_all_chats_go]
    rw [go_recent n notify rest _, removeOneChat_recent]

theorem go_room_keys (n : String) (notify : Bool) :
    ∀ (chats : List String) (st : ServerState),
      ((remove_from_all_chats_go n notify chats st).1).chat_rooms.map Prod.fst =
        st.chat_rooms.map Prod.fst
  | [], st => rfl
  | c :: rest, st => by
    rw [remove_from_all_chats_go]
    rw [go_room_keys n notify rest _, removeOneChat_room_keys]

theorem go_cleanAt (n : String) (notify : Bool) :
    ∀ (chats : List String) (st : ServerState) (c' : String),
      CleanAt n st c' → CleanAt n (remove_from_all_chats_go n notify chats st).1 c'
  | [], st, c', hc => hc
  | c :: rest, st, c', hc => by
    rw [remove_from_all_chats_go]
    exact go_cleanAt n notify rest _ c' (removeOneChat_cleanAt st n notify c c' hc)

theorem go_cleanAt_processed (n : String) (notify : Bool) :
    ∀ (chats : List String) (st : ServerState) (c : String), c ∈ chats →
      CleanAt n (remove_from_all_chats_go n notify chats st).1 c
  | [], st, c, hc => absurd hc (List.not_mem_nil c)
  | c0 :: rest, st, c, hc => by
    rw [remove_from_all_chats_go]
    rcases List.mem_cons.mp hc with h | h
    · subst h
      exact go_cleanAt n notify rest _ c (removeOneChat_cleanAt_self st n notify c)
    · exact go_cleanAt_processed n notify rest _ c h

/-- After `remove_from_all_chats`, the nickname is a member of no room. -/
theorem remove_from_all_chats_clean (st : ServerState) (n : String) (notify : Bool) :
    ∀ c mems, lookupA c ((remove_from_all_chats st n notify).1).chat_rooms = some mems →
      n ∉ mems := by
  intro c mems hl
  have hkeys : ((remove_from_all_chats st n notify).1).chat_rooms.map Prod.fst =
      st.chat_rooms.map Prod.fst := go_room_keys n notify _ st
  have hc : c ∈ st.chat_rooms.map Prod.fst := by
    rw [← hkeys]
    exact lookupA_mem_keys hl
  exact go_cleanAt_processed n notify _ st c hc mems hl

/-! ## Retry and dedup lemmas -/

theorem safe_send_attempts_le (f : Nat → Bool) : (safe_send f).2 ≤ 3 := by
  unfold safe_send
  by_cases h0 : f 0 <;> by_cases h1 : f 1 <;> by_cases h2 : f 2 <;>
    simp [h0, h1, h2]

theorem safe_send_all_fail (f : Nat → Bool) (h0 : f 0 = false) (h1 : f 1 = false)
    (h2 : f 2 = false) : safe_send f = (false, 3) := by
  unfold safe_send
  simp [h0, h1, h2]

/-- The targets a broadcast attempts are independent of the transport
outcomes: projecting away the per-send results recovers the plain
broadcast. -/
theorem broadcast_result_go_proj (n2w : List (String × Nat)) (payload : Envelope)
    (ex : Option String) (sendOk : Nat → Nat → Bool) :
    ∀ mems : List String,
      (broadcast_result_go n2w payload ex sendOk mems).map (fun t => (t.1, t.2.1)) =
        broadcast_go n2w payload ex mems := by
  intro mems
  induction mems with
  | nil => rfl
  | cons y rest ih =>
    rw [broadcast_result_go, broadcast_go]
    by_cases hy : some y = ex
    · rw [if_pos hy, if_pos hy, ih]
    · rw [if_neg hy, if_neg hy]
      cases hly : lookupA y n2w with
      | none => exact ih
      | some w => simp [ih]

theorem handle_message_cmd_result_state (st : ServerState) (n : String)
    (cid cont : Option String) (now : Nat) (sendOk : Nat → Nat → Bool) :
    (handle_message_cmd_result st n cid cont now sendOk).1 =
      (handle_message_cmd st n cid cont now).1 := by
  unfold handle_message_cmd_result handle_message_cmd
  cases cid with
  | none => cases cont <;> rfl
  | some c =>
    cases cont with
    | none => rfl
    | some x =>
      dsimp only
      by_cases hc : c = ""
      · rw [if_pos hc, if_pos hc]
      · rw [if_neg hc, if_neg hc]
        by_cases hd : st.recent_messages.any (fun m => m.1 == hash_message c x)
        · rw [if_pos hd, if_pos hd]
        · rw [if_neg hd, if_neg hd]

/-- A fingerprint already present in the cache suppresses the relay and
leaves the state unchanged, whatever the entry's age. -/
theorem handle_message_cmd_suppressed (st : ServerState) (n c x : String) (now : Nat)
    (hdup : st.recent_messages.any (fun m => m.1 == hash_message c x) = true) :
    handle_message_cmd st n (some c) (some x) now = (st, []) := by
  unfold handle_message_cmd
  dsimp only
  by_cases hc : c = ""
  · rw [if_pos hc]
  · rw [if_neg hc]
    rw [if_pos hdup]

theorem not_mem_of_any_hash_false {cache : List (String × Nat)} {hs : String} {t : Nat}
    (hfresh : cache.any (fun m => m.1 == hs) = false) : (hs, t) ∉ cache := by
  intro hmem
  have h2 : cache.any (fun m => m.1 == hs) = true :=
    List.any_eq_true.mpr ⟨(hs, t), hmem, by simp⟩
  rw [hfresh] at h2
  exact Bool.noConfusion h2

/-- A fresh fingerprint is recorded and the payload is relayed to the room
(excluding the sender), from the updated state. -/
theorem handle_message_cmd_fresh (st : ServerState) (n c x : String) (now : Nat)
    (hc : ¬ c = "")
    (hfresh : st.recent_messages.any (fun m => m.1 == hash_message c x) = false) :
    handle_message_cmd st n (some c) (some x) now =
      (let st' : ServerState :=
        { st with recent_messages := st.recent_messages ++ [(hash_message c x, now)] }
       (st', broadcast_to_chat st' c (Envelope.chatMsg c x) (some n))) := by
  unfold handle_message_cmd
  dsimp only
  rw [if_neg hc]
  rw [if_neg (by rw [hfresh]; exact Bool.noConfusion)]
  rw [if_neg (not_mem_of_any_hash_false hfresh)]

/-- The same for the typeless-frame branch, which additionally joins the
sender to the (possibly fresh) room before relaying. -/
theorem handle_legacy_message_fresh (st : ServerState) (n c x : String) (now : Nat)
    (hc : ¬ c = "")
    (hfresh : st.recent_messages.any (fun m => m.1 == hash_message c x) = false) :
    handle_legacy_message st n (some c) (some x) now =
      (let st' : ServerState :=
        { st with
            recent_messages := st.recent_messages ++ [(hash_message c x, now)]
            chat_rooms := updateA c (insertS n (membersOf st c)) st.chat_rooms }
       (st', broadcast_to_chat st' c (Envelope.chatMsg c x) (some n))) := by
  unfold handle_legacy_message
  dsimp only
  rw [if_neg hc]
  rw [if_neg (by rw [hfresh]; exact Bool.noConfusion)]
  rw [if_neg (not_mem_of_any_hash_false hfresh)]

/-- A sweep never introduces fingerprints: if the cache had no entry with
hash `hs`, it still has none afterwards. -/
theorem cleanup_preserves_fresh {cache : List (String × Nat)} {hs : String} (now : Nat)
    (hfresh : cache.any (fun m => m.1 == hs) = false) :
    (cleanup_message_cache_step cache now).any (fun m => m.1 == hs) = false := by
  rw [List.any_eq_false] at hfresh ⊢
  intro q hq
  exact hfresh q (List.mem_filter.mp hq).1

/-- Sweeping at a time more than the window past an entry's timestamp
removes it: afterwards, the cache built by appending `(hs, t)` to a cache
with no `hs` entry again has no `hs` entry. -/
theorem cleanup_removes_expired {cache : List (String × Nat)} {hs : String} {t now : Nat}
    (hfresh : cache.any (fun m => m.1 == hs) = false)
    (hexp : now - t > MESSAGE_CACHE_TIME) :
    (cleanup_message_cache_step (cache ++ [(hs, t)]) now).any (fun m => m.1 == hs) = false := by
  unfold cleanup_message_cache_step at *
  rw [List.filter_append]
  rw [List.any_append]
  have h1 : (cache.filter (fun m => ¬ now - m.2 > MESSAGE_CACHE_TIME)).any
      (fun m => m.1 == hs) = false := by
    rw [List.any_eq_false] at hfresh ⊢
    intro q hq
    exact hfresh q (List.mem_filter.mp hq).1
  have h2 : (List.filter (fun m => ¬ now - m.2 > MESSAGE_CACHE_TIME) [(hs, t)]) =
      ([] : List (String × Nat)) := by
    simp [List.filter, hexp]
  rw [h1, h2]
  rfl

/-! ## Key-fanout lemmas -/

theorem fanout_room_go_mem (n2w : List (String × Nat)) (n pem : String) :
    ∀ (mems sent_to : List String) (m : String),
      m ∈ (fanout_room_go n2w n pem mems sent_to).1 ↔
        m ∈ sent_to ∨ (m ∈ mems ∧ ¬ m = n ∧ (lookupA m n2w).isSome = true) := by
  intro mems
  induction mems with
  | nil => intro sent_to m; simp [fanout_room_go]
  | cons y rest ih =>
    intro sent_to m
    rw [fanout_room_go]
    by_cases h1 : y = n
    · rw [if_pos h1]
      subst h1
      rw [ih]
      simp only [List.mem_cons]
      constructor
      · rintro (h | ⟨hm, hn, hs⟩)
        · exact Or.inl h
        · exact Or.inr ⟨Or.inr hm, hn, hs⟩
      · rintro (h | ⟨hm | hm, hn, hs⟩)
        · exact Or.inl h
        · exact absurd hm hn
        · exact Or.inr ⟨hm, hn, hs⟩
    · rw [if_neg h1]
      by_cases h2 : y ∈ sent_to
      · rw [if_pos h2, ih]
        by_cases hmy : m = y
        · subst hmy
          simp [h2, List.mem_cons]
        · simp [List.mem_cons, hmy]
      · rw [if_neg h2]
        cases hly : lookupA y n2w with
        | some w =>
          dsimp only
          rw [ih]
          by_cases hmy : m = y
          · subst hmy
            simp [mem_insertS, h1, hly, List.mem_cons]
          · simp [mem_insertS, hmy, List.mem_cons]
        | none =>
          rw [ih]
          by_cases hmy : m = y
          · subst hmy
            simp [hly, List.mem_cons]
          · simp [hmy, List.mem_cons]

theorem fanout_room_go_count (n2w : List (String × Nat)) (n pem : String)
    {m : String} {wsm : Nat}
    (hvals : (n2w.map Prod.snd).Nodup) (hm : lookupA m n2w = some wsm) :
    ∀ (mems sent_to : List String),
      (fanout_room_go n2w n pem mems sent_to).2.count (wsm, Envelope.key n pem) =
        if m ∈ mems ∧ ¬ m = n ∧ m ∉ sent_to then 1 else 0 := by
  intro mems
  induction mems with
  | nil => intro sent_to; simp [fanout_room_go]
  | cons y rest ih =>
    intro sent_to
    rw [fanout_room_go]
    by_cases h1 : y = n
    · rw [if_pos h1]
      subst h1
      rw [ih]
      by_cases hmy : m = y
      · simp [hmy]
      · simp [List.mem_cons, hmy]
    · rw [if_neg h1]
      by_cases h2 : y ∈ sent_to
      · rw [if_pos h2, ih]
        by_cases hmy : m = y
        · subst hmy
          simp [h2]
        · simp [List.mem_cons, hmy]
      · rw [if_neg h2]
        cases hly : lookupA y n2w with
        | some w =>
          dsimp only
          rw [List.count_cons, ih]
          by_cases hmy : m = y
          · subst hmy
            have hw : wsm = w := by
              rw [hm] at hly
              exact Option.some_inj.mp hly
            simp [← hw, self_mem_insertS, h1, h2, List.mem_cons]
          · have hwm : ¬ w = wsm := by
              intro h
              subst h
              exact hmy (lookupA_inj_of_vals_nodup hvals hm hly)
            have hmw : ¬ wsm = w := fun h => hwm h.symm
            simp [mem_insertS, hmy, hwm, hmw, Prod.ext_iff, List.mem_cons]
        | none =>
          rw [ih]
          by_cases hmy : m = y
          · rw [← hmy, hm] at hly
            exact Option.noConfusion hly
          · simp [List.mem_cons, hmy]

theorem fanout_key_go_mem (rooms : List (String × List String))
    (n2w : List (String × Nat)) (n pem : String) :
    ∀ (chats sent_to : List String) (m : String),
      m ∈ (fanout_key_go rooms n2w n pem chats sent_to).1 ↔
        m ∈ sent_to ∨ (¬ m = n ∧ (lookupA m n2w).isSome = true ∧
          ∃ c ∈ chats, m ∈ (lookupA c rooms).getD []) := by
  intro chats
  induction chats with
  | nil => intro sent_to m; simp [fanout_key_go]
  | cons c rest ih =>
    intro sent_to m
    rw [fanout_key_go]
    dsimp only
    rw [ih, fanout_room_go_mem]
    simp only [List.exists_mem_cons_iff]
    tauto

theorem fanout_key_go_count (rooms : List (String × List String))
    (n2w : List (String × Nat)) (n pem : String) {m : String} {wsm : Nat}
    (hvals : (n2w.map Prod.snd).Nodup) (hm : lookupA m n2w = some wsm) :
    ∀ (chats sent_to : List String),
      (fanout_key_go rooms n2w n pem chats sent_to).2.count (wsm, Envelope.key n pem) =
        if (∃ c ∈ chats, m ∈ (lookupA c rooms).getD []) ∧ ¬ m = n ∧ m ∉ sent_to
        then 1 else 0 := by
  intro chats
  induction chats with
  | nil => intro sent_to; simp [fanout_key_go]
  | cons c rest ih =>
    intro sent_to
    rw [fanout_key_go]
    dsimp only
    rw [List.count_append, fanout_room_go_count n2w n pem hvals hm, ih]
    have hsome : (lookupA m n2w).isSome = true := by rw [hm]; rfl
    have hmem1 := fanout_room_go_mem n2w n pem ((lookupA c rooms).getD []) sent_to m
    by_cases hA : m ∈ (lookupA c rooms).getD [] <;>
      by_cases hB : m = n <;>
        by_cases hS : m ∈ sent_to <;>
          by_cases hC : ∃ c' ∈ rest, m ∈ (lookupA c' rooms).getD [] <;>
            simp [hA, hB, hS, hC, hmem1, hsome, List.exists_mem_cons_iff]

/-! ## Key-publish lemmas -/

theorem mem_myChats {rooms : List (String × List String)} {n c : String} :
    c ∈ myChats rooms n ↔ ∃ mems, (c, mems) ∈ rooms ∧ n ∈ mems := by
  unfold myChats
  constructor
  · intro h
    rcases List.mem_map.mp h with ⟨p, hp, hpc⟩
    have hf := List.mem_filter.mp hp
    refine ⟨p.2, ?_, by simpa using hf.2⟩
    rw [← hpc]
    exact hf.1
  · rintro ⟨mems, hmem, hn⟩
    exact List.mem_map.mpr ⟨(c, mems), List.mem_filter.mpr ⟨hmem, by simpa using hn⟩, rfl⟩

theorem handle_public_key_cmd_eq (st : ServerState) (n p : String) (ws : Nat)
    (hp : ¬ p = "") :
    handle_public_key_cmd st n (some p) ws =
      (let st' : ServerState := { st with client_keys := updateA n p st.client_keys }
       let r := fanout_key_go st.chat_rooms st.nickname_to_ws n p
         (myChats st.chat_rooms n) []
       (st', r.2 ++ [(ws, Envelope.pubkeyStored r.1.length)])) := by
  unfold handle_public_key_cmd
  dsimp only
  rw [if_neg hp]

/-- Regardless of the previously stored value, a key publish overwrites the
store with the published blob. -/
theorem handle_public_key_stores (st : ServerState) (n p : String) (ws : Nat)
    (hp : ¬ p = "") :
    lookupA n ((handle_public_key_cmd st n (some p) ws).1).client_keys = some p := by
  rw [handle_public_key_cmd_eq st n p ws hp]
  exact lookupA_updateA_self n p st.client_keys

/-- Regardless of the previously stored value, a peer sharing a room with
the publisher is sent the key exactly once. -/
theorem handle_public_key_fanout_count (st : ServerState) (n p : String) (wsn : Nat)
    {m : String} {wsm : Nat} {c : String} {mems : List String}
    (hp : ¬ p = "")
    (hvals : (st.nickname_to_ws.map Prod.snd).Nodup)
    (hm : lookupA m st.nickname_to_ws = some wsm)
    (hc : lookupA c st.chat_rooms = some mems)
    (hn : n ∈ mems) (hmm : m ∈ mems) (hmn : ¬ m = n) :
    (handle_public_key_cmd st n (some p) wsn).2.count (wsm, Envelope.key n p) = 1 := by
  rw [handle_public_key_cmd_eq st n p wsn hp]
  dsimp only
  rw [List.count_append,
    fanout_key_go_count st.chat_rooms st.nickname_to_ws n p hvals hm]
  have hex : ∃ c' ∈ myChats st.chat_rooms n, m ∈ (lookupA c' st.chat_rooms).getD [] := by
    refine ⟨c, mem_myChats.mpr ⟨mems, lookupA_mem hc, hn⟩, ?_⟩
    rw [hc]
    exact hmm
  rw [if_pos ⟨hex, hmn, List.not_mem_nil m⟩]
  simp

/-- The publisher's own websocket never receives a copy of the key. -/
theorem handle_public_key_no_self_copy (st : ServerState) (n p : String) (wsn : Nat)
    {wsn' : Nat} (hp : ¬ p = "")
    (hvals : (st.nickname_to_ws.map Prod.snd).Nodup)
    (hself : lookupA n st.nickname_to_ws = some wsn') :
    (handle_public_key_cmd st n (some p) wsn).2.count (wsn', Envelope.key n p) = 0 := by
  rw [handle_public_key_cmd_eq st n p wsn hp]
  dsimp only
  rw [List.count_append,
    fanout_key_go_count st.chat_rooms st.nickname_to_ws n p hvals hself]
  rw [if_neg (by intro h; exact h.2.1 rfl)]
  simp

/-! ## Handshake lemmas -/

theorem register_ws_eq_takeover (st : ServerState) (n : String) (ws old : Nat)
    (h : lookupA n st.nickname_to_ws = some old) (hne : ¬ old = ws) :
    register_ws st n ws =
      StepOutcome.deadlocked st
        [(old, Envelope.forceDisconnect "Connessione concorrente")] := by
  unfold register_ws
  rw [h]
  dsimp only
  rw [if_neg hne]

theorem disconnect_client_eq (st : ServerState) (ws : Nat) (n : String) (notify : Bool)
    (h : lookupA ws st.clients = some n) :
    disconnect_client st ws notify =
      remove_from_all_chats
        { st with
            clients := eraseA ws st.clients
            nickname_to_ws := eraseA n st.nickname_to_ws
            client_keys := eraseA n st.client_keys } n notify := by
  unfold disconnect_client
  rw [h]

/-- Registration either deadlocks on the held lock, leaving the state
untouched and having sent only the `force_disconnect` notice, or runs to
completion with the new websocket registered, no sends and no closes. -/
theorem register_ws_spec (st : ServerState) (n : String) (ws : Nat) :
    (∃ old, register_ws st n ws =
        StepOutcome.deadlocked st
          [(old, Envelope.forceDisconnect "Connessione concorrente")]) ∨
    (∃ st1, register_ws st n ws = StepOutcome.completed st1 [] [] ∧
        lookupA ws st1.clients = some n) := by
  unfold register_ws
  cases hl : lookupA n st.nickname_to_ws with
  | none =>
    right
    exact ⟨_, rfl, lookupA_updateA_self ws n st.clients⟩
  | some old =>
    dsimp only
    by_cases he : old = ws
    · right
      rw [if_pos he]
      exact ⟨_, rfl, lookupA_updateA_self ws n st.clients⟩
    · left
      rw [if_neg he]
      exact ⟨old, rfl⟩

/-- Registration never closes any websocket: the completed branches close
nothing, and on takeover the `old.close()` call sits below the `await`
that deadlocks, so it is unreachable. -/
theorem register_ws_closes_nil (st : ServerState) (n : String) (ws : Nat) :
    (register_ws st n ws).closes = [] := by
  unfold register_ws
  cases hl : lookupA n st.nickname_to_ws with
  | none => rfl
  | some old =>
    dsimp only
    by_cases he : old = ws
    · rw [if_pos he]
      rfl
    · rw [if_neg he]
      rfl

theorem handle_connect_cmd_clients (st : ServerState) (n : String) (ws : Nat)
    (chats : List String) :
    ((handle_connect_cmd st n ws chats).1).clients = st.clients := by
  unfold handle_connect_cmd
  dsimp only
  induction chats generalizing st with
  | nil => rfl
  | cons c rest ih =>
    rw [List.foldl_cons]
    exact ih _

/-! ## Classification of handshake sends (no error envelopes) -/

theorem removeOneChat_sends_mem (st : ServerState) (n : String) (notify : Bool)
    (c : String) {mems : List String}
    (hcl : lookupA c st.chat_rooms = some mems) (h : n ∈ mems) :
    (removeOneChat st n notify c).2 =
      (if notify && !(mems.filter (fun m => ¬ m = n)).isEmpty then
        broadcast_to_chat
          { st with chat_rooms := updateA c (mems.filter (fun m => ¬ m = n)) st.chat_rooms }
          c (Envelope.chatMsg c ("[Sistema] L'utente " ++ n ++ " si è disconnesso!"))
          (some n)
      else []) := by
  unfold removeOneChat
  rw [hcl]
  dsimp only
  rw [if_pos h]

theorem broadcast_go_not_error {n2w : List (String × Nat)} {payload : Envelope}
    {ex : Option String} {mems : List String} {q : Nat × Envelope}
    (hq : q ∈ broadcast_go n2w payload ex mems) (hpay : payload.isError = false) :
    (q.2).isError = false := by
  rw [broadcast_go_payload hq]
  exact hpay

theorem removeOneChat_sends_not_error (st : ServerState) (n : String) (notify : Bool)
    (c : String) : ∀ q ∈ (removeOneChat st n notify c).2, (q.2).isError = false := by
  intro q hq
  cases hcl : lookupA c st.chat_rooms with
  | none =>
    rw [removeOneChat_eq_none notify hcl] at hq
    simp at hq
  | some mems =>
    by_cases h : n ∈ mems
    · rw [removeOneChat_sends_mem st n notify c hcl h] at hq
      by_cases hcond : (notify && !(mems.filter (fun m => ¬ m = n)).isEmpty) = true
      · rw [if_pos hcond] at hq
        exact broadcast_go_not_error hq rfl
      · rw [if_neg hcond] at hq
        simp at hq
    · rw [removeOneChat_eq_not_mem notify hcl h] at hq
      simp at hq

theorem go_sends_not_error (n : String) (notify : Bool) :
    ∀ (chats : List String) (st : ServerState) (q : Nat × Envelope),
      q ∈ (remove_from_all_chats_go n notify chats st).2 → (q.2).isError = false
  | [], st, q, hq => by simp [remove_from_all_chats_go] at hq
  | c :: rest, st, q, hq => by
    rw [remove_from_all_chats_go] at hq
    dsimp only at hq
    rcases List.mem_append.mp hq with h | h
    · exact removeOneChat_sends_not_error st n notify c q h
    · exact go_sends_not_error n notify rest _ q h

theorem register_ws_sends_not_error (st : ServerState) (n : String) (ws : Nat) :
    ∀ q ∈ (register_ws st n ws).sends, (q.2).isError = false := by
  intro q hq
  rcases register_ws_spec st n ws with ⟨old, heq⟩ | ⟨st1, heq, _⟩
  · rw [heq] at hq
    rcases List.mem_singleton.mp hq with h
    rw [h]
    rfl
  · rw [heq] at hq
    simp [StepOutcome.sends] at hq

theorem foldr_append_mem {β : Type} (g : String → List β) :
    ∀ (chats : List String) (q : β),
      q ∈ chats.foldr (fun c acc => g c ++ acc) [] → ∃ c ∈ chats, q ∈ g c
  | [], q, hq => by simp at hq
  | c :: rest, q, hq => by
    rw [List.foldr_cons] at hq
    rcases List.mem_append.mp hq with h | h
    · exact ⟨c, List.mem_cons_self _ _, h⟩
    · rcases foldr_append_mem g rest q h with ⟨c', hc', hqc⟩
      exact ⟨c', List.mem_cons_of_mem _ hc', hqc⟩

theorem handle_connect_cmd_sends_not_error (st : ServerState) (n : String) (ws : Nat)
    (chats : List String) :
    ∀ q ∈ (handle_connect_cmd st n ws chats).2, (q.2).isError = false := by
  intro q hq
  unfold handle_connect_cmd at hq
  dsimp only at hq
  rcases List.mem_append.mp hq with h | h
  · rcases foldr_append_mem _ chats q h with ⟨c, _, hqc⟩
    rcases List.mem_filterMap.mp hqc with ⟨m, _, hf⟩
    by_cases hmn : m = n
    · rw [if_pos hmn] at hf
      exact Option.noConfusion hf
    · rw [if_neg hmn] at hf
      cases hk : lookupA m _ with
      | none =>
        rw [hk] at hf
        exact Option.noConfusion hf
      | some k =>
        rw [hk] at hf
        dsimp only at hf
        by_cases hke : k = ""
        · rw [if_pos hke] at hf
          exact Option.noConfusion hf
        · rw [if_neg hke] at hf
          rw [← Option.some_inj.mp hf]
          rfl
  · rcases foldr_append_mem _ chats q h with ⟨c, _, hqc⟩
    exact broadcast_go_not_error hqc rfl

theorem remove_from_all_chats_clients (st : ServerState) (n : String) (notify : Bool) :
    ((remove_from_all_chats st n notify).1).clients = st.clients :=
  go_clients n notify _ st

theorem remove_from_all_chats_n2w (st : ServerState) (n : String) (notify : Bool) :
    ((remove_from_all_chats st n notify).1).nickname_to_ws = st.nickname_to_ws :=
  go_n2w n notify _ st

theorem remove_from_all_chats_ckeys (st : ServerState) (n : String) (notify : Bool) :
    ((remove_from_all_chats st n notify).1).client_keys = st.client_keys :=
  go_ckeys n notify _ st

/-- A broadcast delivers its payload exactly once to a member's websocket,
for a room whose member snapshot has no duplicates and a websocket table
with no shared sockets. -/
theorem broadcast_count_one (st : ServerState) (c : String) (payload : Envelope)
    (n m : String) (wsm : Nat)
    (hvals : (st.nickname_to_ws.map Prod.snd).Nodup)
    (hm : lookupA m st.nickname_to_ws = some wsm)
    (hmem : m ∈ membersOf st c) (hmn : ¬ m = n) (hnd : (membersOf st c).Nodup) :
    (broadcast_to_chat st c payload (some n)).count (wsm, payload) = 1 := by
  unfold broadcast_to_chat
  rw [broadcast_go_count payload (some n) hvals hm]
  rw [if_neg (fun h => hmn (Option.some_inj.mp h))]
  exact List.count_eq_one_of_mem hnd hmem

/-! ## Claim C10 -/

def stC10 : ServerState :=
  { clients := [(1, "A"), (2, "X"), (3, "B"), (4, "Y")]
    nickname_to_ws := [("A", 1), ("X", 2), ("B", 3), ("Y", 4)]
    client_keys := []
    chat_rooms := [("ab", ["A", "X"]), ("a", ["B", "Y"])]
    recent_messages := [] }

/-- Claim C10: the dedup fingerprint is SHA-256 of the plain concatenation
of room id and content with no separator, so the distinct pairs
("ab", "c") and ("a", "bc") collide, and a message in room "ab" suppresses
a different message in room "a" within the window: the second message is
not relayed to room "a"'s members even though the first was relayed to
room "ab"'s members. -/
theorem c10_hash_collision :
    hash_message "ab" "c" = hash_message "a" "bc" ∧
    (handle_message_cmd stC10 "A" (some "ab") (some "c") 0).2 =
      [(2, Envelope.chatMsg "ab" "c")] ∧
    (handle_message_cmd (handle_message_cmd stC10 "A" (some "ab") (some "c") 0).1
      "B" (some "a") (some "bc") 1).2 = [] := by
  have hcol : hash_message "ab" "c" = hash_message "a" "bc" := rfl
  refine ⟨hcol, ?_, ?_⟩
  · rw [handle_message_cmd_fresh stC10 "A" "ab" "c" 0 (by decide) (by rfl)]
    rfl
  · have hstate : (handle_message_cmd stC10 "A" (some "ab") (some "c") 0).1 =
        { stC10 with recent_messages := [(hash_message "ab" "c", 0)] } := by
      rw [handle_message_cmd_fresh stC10 "A" "ab" "c" 0 (by decide) (by rfl)]
      rfl
    rw [hstate]
    rw [handle_message_cmd_suppressed _ "B" "a" "bc" 1 (by rw [← hcol]; simp)]

/-! ## Claim C9 -/

/-- Claim C9: a typeless frame carrying `chat_id` and `content`, once it
passes the dedup check, adds the sender to the room's member set (creating
the room if absent) and the relay is computed from that updated state, so
sending a message to a room makes the sender a member without any join. -/
theorem c9_legacy_autojoin (st : ServerState) (n c x : String) (now : Nat)
    (hc : ¬ c = "")
    (hfresh : st.recent_messages.any (fun q => q.1 == hash_message c x) = false) :
    lookupA c ((handle_legacy_message st n (some c) (some x) now).1).chat_rooms =
      some (insertS n (membersOf st c)) ∧
    n ∈ insertS n (membersOf st c) ∧
    (handle_legacy_message st n (some c) (some x) now).2 =
      broadcast_to_chat (handle_legacy_message st n (some c) (some x) now).1 c
        (Envelope.chatMsg c x) (some n) := by
  rw [handle_legacy_message_fresh st n c x now hc hfresh]
  exact ⟨lookupA_updateA_self c _ st.chat_rooms, self_mem_insertS n _, rfl⟩

def stC9 : ServerState :=
  { clients := [(1, "A")]
    nickname_to_ws := [("A", 1)]
    client_keys := []
    chat_rooms := []
    recent_messages := [] }

theorem c9_legacy_autojoin_witness :
    ((¬ "r1" = "") ∧
      stC9.recent_messages.any (fun q => q.1 == hash_message "r1" "x") = false) ∧
    (lookupA "r1" ((handle_legacy_message stC9 "A" (some "r1") (some "x") 5).1).chat_rooms =
        some (insertS "A" (membersOf stC9 "r1")) ∧
      "A" ∈ insertS "A" (membersOf stC9 "r1") ∧
      (handle_legacy_message stC9 "A" (some "r1") (some "x") 5).2 =
        broadcast_to_chat (handle_legacy_message stC9 "A" (some "r1") (some "x") 5).1 "r1"
          (Envelope.chatMsg "r1" "x") (some "A")) :=
  ⟨⟨by decide, by rfl⟩, c9_legacy_autojoin stC9 "A" "r1" "x" 5 (by decide) (by rfl)⟩

/-! ## Claim C2 -/

/-- Claim C2: cascade teardown is total: after `disconnect_client` on a
websocket registered to an identity, that identity is a member of zero
rooms, has no key record, and has no registry mapping in either direction
(assuming the websocket was the identity's only registry entry). -/
theorem c2_cascade_teardown (st : ServerState) (ws : Nat) (n : String)
    (hcl : lookupA ws st.clients = some n)
    (huniq : ∀ p ∈ st.clients, p.2 = n → p.1 = ws) :
    lookupA n ((disconnect_client st ws true).1).nickname_to_ws = none ∧
    lookupA n ((disconnect_client st ws true).1).client_keys = none ∧
    (∀ c mems, lookupA c ((disconnect_client st ws true).1).chat_rooms = some mems →
      n ∉ mems) ∧
    lookupA ws ((disconnect_client st ws true).1).clients = none ∧
    (∀ p ∈ ((disconnect_client st ws true).1).clients, ¬ p.2 = n) := by
  rw [disconnect_client_eq st ws n true hcl]
  refine ⟨?_, ?_, ?_, ?_, ?_⟩
  · rw [remove_from_all_chats_n2w]
    exact lookupA_eraseA_self n st.nickname_to_ws
  · rw [remove_from_all_chats_ckeys]
    exact lookupA_eraseA_self n st.client_keys
  · exact remove_from_all_chats_clean _ n true
  · rw [remove_from_all_chats_clients]
    exact lookupA_eraseA_self ws st.clients
  · intro p hp hpn
    rw [remove_from_all_chats_clients] at hp
    have h2 := mem_eraseA hp
    exact h2.2 (huniq p h2.1 hpn)

def stC2 : ServerState :=
  { clients := [(1, "A"), (2, "B")]
    nickname_to_ws := [("A", 1), ("B", 2)]
    client_keys := [("A", "KEYA"), ("B", "KEYB")]
    chat_rooms := [("r1", ["A", "B"]), ("r2", ["A"])]
    recent_messages := [] }

theorem c2_cascade_teardown_witness :
    (lookupA 1 stC2.clients = some "A" ∧
      (∀ p ∈ stC2.clients, p.2 = "A" → p.1 = 1)) ∧
    (lookupA "A" ((disconnect_client stC2 1 true).1).nickname_to_ws = none ∧
      lookupA "A" ((disconnect_client stC2 1 true).1).client_keys = none ∧
      (∀ c mems, lookupA c ((disconnect_client stC2 1 true).1).chat_rooms = some mems →
        "A" ∉ mems) ∧
      lookupA 1 ((disconnect_client stC2 1 true).1).clients = none ∧
      (∀ p ∈ ((disconnect_client stC2 1 true).1).clients, ¬ p.2 = "A")) :=
  ⟨⟨by decide, by decide⟩, c2_cascade_teardown stC2 1 "A" (by decide) (by decide)⟩

/-! ## Claim C6 -/

/-- Claim C6: on a key publish that changes the stored key, every peer
sharing at least one room with the publisher receives the new key exactly
once (even when sharing several rooms), and the publisher's own websocket
receives no copy. -/
theorem c6_key_fanout (st : ServerState) (n pem : String) (wsn wsm : Nat)
    (m c : String) (mems : List String)
    (hpem : ¬ pem = "")
    (hchanged : ¬ lookupA n st.client_keys = some pem)
    (hvals : (st.nickname_to_ws.map Prod.snd).Nodup)
    (hm : lookupA m st.nickname_to_ws = some wsm)
    (hself : lookupA n st.nickname_to_ws = some wsn)
    (hc : lookupA c st.chat_rooms = some mems)
    (hn : n ∈ mems) (hmm : m ∈ mems) (hmn : ¬ m = n) :
    (handle_public_key_cmd st n (some pem) wsn).2.count (wsm, Envelope.key n pem) = 1 ∧
    (handle_public_key_cmd st n (some pem) wsn).2.count (wsn, Envelope.key n pem) = 0 :=
  ⟨handle_public_key_fanout_count st n pem wsn hpem hvals hm hc hn hmm hmn,
   handle_public_key_no_self_copy st n pem wsn hpem hvals hself⟩

def stC6 : ServerState :=
  { clients := [(1, "A"), (2, "B")]
    nickname_to_ws := [("A", 1), ("B", 2)]
    client_keys := [("A", "OLDPEM")]
    chat_rooms := [("r1", ["A", "B"]), ("r2", ["A", "B"])]
    recent_messages := [] }

theorem c6_key_fanout_witness :
    ((¬ "NEWPEM" = "") ∧
      (¬ lookupA "A" stC6.client_keys = some "NEWPEM") ∧
      (stC6.nickname_to_ws.map Prod.snd).Nodup ∧
      lookupA "B" stC6.nickname_to_ws = some 2 ∧
      lookupA "A" stC6.nickname_to_ws = some 1 ∧
      lookupA "r1" stC6.chat_rooms = some ["A", "B"] ∧
      "A" ∈ ["A", "B"] ∧ "B" ∈ ["A", "B"] ∧ ¬ "B" = "A") ∧
    ((handle_public_key_cmd stC6 "A" (some "NEWPEM") 1).2.count
        (2, Envelope.key "A" "NEWPEM") = 1 ∧
      (handle_public_key_cmd stC6 "A" (some "NEWPEM") 1).2.count
        (1, Envelope.key "A" "NEWPEM") = 0) :=
  ⟨⟨by decide, by decide, by decide, by decide, by decide, by decide, by decide,
    by decide, by decide⟩,
   c6_key_fanout stC6 "A" "NEWPEM" 1 2 "B" "r1" ["A", "B"] (by decide) (by decide)
     (by decide) (by decide) (by decide) (by decide) (by decide) (by decide) (by decide)⟩

/-! ## Claim C4 -/

def stC4 : ServerState :=
  { clients := [(1, "A"), (2, "B")]
    nickname_to_ws := [("A", 1), ("B", 2)]
    client_keys := [("A", "PEMA")]
    chat_rooms := [("r1", ["A", "B"])]
    recent_messages := [] }

/-- Claim C4 counterexample: with the key "PEMA" already stored for "A",
re-publishing the identical "PEMA" still fans the key out to peer "B" and
acknowledges with a `pubkey_stored` count rather than a changed flag — the
claimed "write only if different, fan out only when changed" behaviour
does not hold. -/
theorem c4_counterexample :
    lookupA "A" stC4.client_keys = some "PEMA" ∧
    (handle_public_key_cmd stC4 "A" (some "PEMA") 1).2 =
      [(2, Envelope.key "A" "PEMA"), (1, Envelope.pubkeyStored 1)] := by
  exact ⟨rfl, rfl⟩

/-- Claim C4 (amended): the key-store write is unconditional and so is the
fan-out: publishing a key identical to the stored one still stores it and
still sends it exactly once to each peer sharing a room. -/
theorem c4_unconditional_store_and_fanout (st : ServerState) (n pem : String)
    (wsn wsm : Nat) (m c : String) (mems : List String)
    (hpem : ¬ pem = "")
    (hstored : lookupA n st.client_keys = some pem)
    (hvals : (st.nickname_to_ws.map Prod.snd).Nodup)
    (hm : lookupA m st.nickname_to_ws = some wsm)
    (hc : lookupA c st.chat_rooms = some mems)
    (hn : n ∈ mems) (hmm : m ∈ mems) (hmn : ¬ m = n) :
    lookupA n ((handle_public_key_cmd st n (some pem) wsn).1).client_keys = some pem ∧
    (handle_public_key_cmd st n (some pem) wsn).2.count (wsm, Envelope.key n pem) = 1 :=
  ⟨handle_public_key_stores st n pem wsn hpem,
   handle_public_key_fanout_count st n pem wsn hpem hvals hm hc hn hmm hmn⟩

theorem c4_unconditional_store_and_fanout_witness :
    ((¬ "PEMA" = "") ∧
      lookupA "A" stC4.client_keys = some "PEMA" ∧
      (stC4.nickname_to_ws.map Prod.snd).Nodup ∧
      lookupA "B" stC4.nickname_to_ws = some 2 ∧
      lookupA "r1" stC4.chat_rooms = some ["A", "B"] ∧
      "A" ∈ ["A", "B"] ∧ "B" ∈ ["A", "B"] ∧ ¬ "B" = "A") ∧
    (lookupA "A" ((handle_public_key_cmd stC4 "A" (some "PEMA") 1).1).client_keys =
        some "PEMA" ∧
      (handle_public_key_cmd stC4 "A" (some "PEMA") 1).2.count
        (2, Envelope.key "A" "PEMA") = 1) :=
  ⟨⟨by decide, by decide, by decide, by decide, by decide, by decide, by decide,
    by decide⟩,
   c4_unconditional_store_and_fanout stC4 "A" "PEMA" 1 2 "B" "r1" ["A", "B"]
     (by decide) (by decide) (by decide) (by decide) (by decide) (by decide)
     (by decide) (by decide)⟩

/-! ## Claim C5 -/

def stC5 : ServerState :=
  { clients := [(1, "A"), (2, "B")]
    nickname_to_ws := [("A", 1), ("B", 2)]
    client_keys := []
    chat_rooms := [("r1", ["A", "B"])]
    recent_messages := [] }

/-- Claim C5 counterexample: the envelope actually relayed to peer "B" for
an accepted message is the typeless `{"chat_id", "content"}` record, which
is not the `{type:"message", from, room_id, content}` envelope the claim
prescribes: the relay carries neither the sender identity nor a type
discriminator. -/
theorem c5_counterexample :
    (handle_message_cmd stC5 "A" (some "r1") (some "abc") 0).2 =
      [(2, Envelope.chatMsg "r1" "abc")] ∧
    ¬ Envelope.chatMsg "r1" "abc" = specRelayEnvelope "A" "r1" "abc" := by
  constructor
  · rw [handle_message_cmd_fresh stC5 "A" "r1" "abc" 0 (by decide) (by rfl)]
    rfl
  · decide

/-- Claim C5 (amended): an accepted message frame is relayed to each
current room member except the sender exactly once, but as the typeless
legacy envelope `{chat_id, content}`: every relayed envelope equals
`Envelope.chatMsg chat_id content`, carrying no sender identity and no
type discriminator. -/
theorem c5_relay_form (st : ServerState) (n c x m : String) (wsm : Nat) (now : Nat)
    (hc : ¬ c = "")
    (hfresh : st.recent_messages.any (fun q => q.1 == hash_message c x) = false)
    (hvals : (st.nickname_to_ws.map Prod.snd).Nodup)
    (hm : lookupA m st.nickname_to_ws = some wsm)
    (hmem : m ∈ membersOf st c) (hmn : ¬ m = n)
    (hnd : (membersOf st c).Nodup) :
    (handle_message_cmd st n (some c) (some x) now).2.count
      (wsm, Envelope.chatMsg c x) = 1 ∧
    ∀ q ∈ (handle_message_cmd st n (some c) (some x) now).2,
      q.2 = Envelope.chatMsg c x := by
  rw [handle_message_cmd_fresh st n c x now hc hfresh]
  dsimp only
  constructor
  · exact broadcast_count_one _ c (Envelope.chatMsg c x) n m wsm hvals hm hmem hmn hnd
  · intro q hq
    exact broadcast_go_payload hq

theorem c5_relay_form_witness :
    ((¬ "r1" = "") ∧
      stC5.recent_messages.any (fun q => q.1 == hash_message "r1" "abc") = false ∧
      (stC5.nickname_to_ws.map Prod.snd).Nodup ∧
      lookupA "B" stC5.nickname_to_ws = some 2 ∧
      "B" ∈ membersOf stC5 "r1" ∧ (¬ "B" = "A") ∧ (membersOf stC5 "r1").Nodup) ∧
    ((handle_message_cmd stC5 "A" (some "r1") (some "abc") 7).2.count
        (2, Envelope.chatMsg "r1" "abc") = 1 ∧
      ∀ q ∈ (handle_message_cmd stC5 "A" (some "r1") (some "abc") 7).2,
        q.2 = Envelope.chatMsg "r1" "abc") :=
  ⟨⟨by decide, by rfl, by decide, by decide, by decide, by decide, by decide⟩,
   c5_relay_form stC5 "A" "r1" "abc" "B" 2 7 (by decide) (by rfl) (by decide)
     (by decide) (by decide) (by decide) (by decide)⟩

/-! ## Claim C3 -/

def stC3 : ServerState :=
  { clients := [(1, "A"), (2, "B")]
    nickname_to_ws := [("A", 1), ("B", 2)]
    client_keys := []
    chat_rooms := [("r1", ["A", "B"])]
    recent_messages := [] }

/-- Claim C3 counterexample: a dedup entry recorded at time 0 is already
older than the 60-second window at time 100, yet — because the lookup
tests hash membership only and never consults the timestamp — an identical
resend at time 100 is still suppressed (no relay), instead of being
treated as absent as the claim requires. -/
theorem c3_counterexample :
    100 - 0 > MESSAGE_CACHE_TIME ∧
    (handle_message_cmd stC3 "A" (some "r1") (some "x") 0).1.recent_messages =
      [(hash_message "r1" "x", 0)] ∧
    (handle_message_cmd (handle_message_cmd stC3 "A" (some "r1") (some "x") 0).1
      "A" (some "r1") (some "x") 100).2 = [] := by
  refine ⟨by decide, ?_, ?_⟩
  · rw [handle_message_cmd_fresh stC3 "A" "r1" "x" 0 (by decide) (by rfl)]
    rfl
  · have hstate : (handle_message_cmd stC3 "A" (some "r1") (some "x") 0).1 =
        { stC3 with recent_messages := [(hash_message "r1" "x", 0)] } := by
      rw [handle_message_cmd_fresh stC3 "A" "r1" "x" 0 (by decide) (by rfl)]
      rfl
    rw [hstate]
    rw [handle_message_cmd_suppressed _ "A" "r1" "x" 100 (by simp)]

/-- Claim C3 (amended): sending the same (room, content) pair twice yields
exactly one relay as long as the fingerprint remains in the cache — the
second send is suppressed at every later time, including times past the
60-second window, because the lookup tests hash membership only; the
identical resend is relayed again only after the cleanup sweep has removed
the expired entry. -/
theorem c3_dedup_window (st : ServerState) (n c x m : String) (wsm : Nat) (t1 : Nat)
    (hc : ¬ c = "")
    (hfresh : st.recent_messages.any (fun q => q.1 == hash_message c x) = false)
    (hvals : (st.nickname_to_ws.map Prod.snd).Nodup)
    (hm : lookupA m st.nickname_to_ws = some wsm)
    (hmem : m ∈ membersOf st c) (hmn : ¬ m = n)
    (hnd : (membersOf st c).Nodup) :
    (handle_message_cmd st n (some c) (some x) t1).2.count
      (wsm, Envelope.chatMsg c x) = 1 ∧
    (∀ t2, (handle_message_cmd (handle_message_cmd st n (some c) (some x) t1).1
      n (some c) (some x) t2).2 = []) ∧
    (∀ t3 t4, t3 - t1 > MESSAGE_CACHE_TIME →
      (handle_message_cmd
        { (handle_message_cmd st n (some c) (some x) t1).1 with
            recent_messages := cleanup_message_cache_step
              ((handle_message_cmd st n (some c) (some x) t1).1).recent_messages t3 }
        n (some c) (some x) t4).2.count (wsm, Envelope.chatMsg c x) = 1) := by
  have E := handle_message_cmd_fresh st n c x t1 hc hfresh
  have hdup : (st.recent_messages ++ [(hash_message c x, t1)]).any
      (fun q => q.1 == hash_message c x) = true := by
    rw [List.any_append]
    simp
  refine ⟨?_, ?_, ?_⟩
  · rw [E]
    dsimp only
    exact broadcast_count_one _ c (Envelope.chatMsg c x) n m wsm hvals hm hmem hmn hnd
  · intro t2
    rw [E]
    dsimp only
    rw [handle_message_cmd_suppressed _ n c x t2 hdup]
  · intro t3 t4 hexp
    rw [E]
    dsimp only
    have hfresh2 : (cleanup_message_cache_step
        (st.recent_messages ++ [(hash_message c x, t1)]) t3).any
        (fun q => q.1 == hash_message c x) = false :=
      cleanup_removes_expired hfresh hexp
    rw [handle_message_cmd_fresh _ n c x t4 hc hfresh2]
    dsimp only
    exact broadcast_count_one _ c (Envelope.chatMsg c x) n m wsm hvals hm hmem hmn hnd

theorem c3_dedup_window_witness :
    ((¬ "r1" = "") ∧
      stC3.recent_messages.any (fun q => q.1 == hash_message "r1" "x") = false ∧
      (stC3.nickname_to_ws.map Prod.snd).Nodup ∧
      lookupA "B" stC3.nickname_to_ws = some 2 ∧
      "B" ∈ membersOf stC3 "r1" ∧ (¬ "B" = "A") ∧ (membersOf stC3 "r1").Nodup) ∧
    ((handle_message_cmd stC3 "A" (some "r1") (some "x") 0).2.count
        (2, Envelope.chatMsg "r1" "x") = 1 ∧
      (∀ t2, (handle_message_cmd (handle_message_cmd stC3 "A" (some "r1") (some "x") 0).1
        "A" (some "r1") (some "x") t2).2 = []) ∧
      (∀ t3 t4, t3 - 0 > MESSAGE_CACHE_TIME →
        (handle_message_cmd
          { (handle_message_cmd stC3 "A" (some "r1") (some "x") 0).1 with
              recent_messages := cleanup_message_cache_step
                ((handle_message_cmd stC3 "A" (some "r1") (some "x") 0).1).recent_messages t3 }
          "A" (some "r1") (some "x") t4).2.count (2, Envelope.chatMsg "r1" "x") = 1)) :=
  ⟨⟨by decide, by rfl, by decide, by decide, by decide, by decide, by decide⟩,
   c3_dedup_window stC3 "A" "r1" "x" "B" 2 0 (by decide) (by rfl) (by decide)
     (by decide) (by decide) (by decide) (by decide)⟩

/-! ## Claim C1 -/

def stC1 : ServerState :=
  { clients := [(1, "A"), (2, "B")]
    nickname_to_ws := [("A", 1), ("B", 2)]
    client_keys := [("A", "KEYA")]
    chat_rooms := [("r1", ["A", "B"])]
    recent_messages := [] }

/-- Claim C1 counterexample: at a state where websocket 1 holds identity
"A"'s live session, registering a second websocket (id 3) for "A" sends
the prior handle the `force_disconnect` notice and then the handler
deadlocks awaiting the non-reentrant lock it already holds (server.py
line 260 awaits `remove_from_all_chats`, whose line 71 re-acquires the
lock taken at line 254).  The state is left completely untouched — "A" is
still mapped to websocket 1, its key record and its room membership
survive — and the new handle never becomes active, so neither "exactly
one live handle afterward" (for the new handle) nor "the prior handle …
fully torn down (removed from the registry, every room, and the key
store) before the new handle becomes active" holds. -/
theorem c1_counterexample :
    register_ws stC1 "A" 3 =
      StepOutcome.deadlocked stC1
        [(1, Envelope.forceDisconnect "Connessione concorrente")] ∧
    lookupA "A" stC1.nickname_to_ws = some 1 ∧
    lookupA 1 stC1.clients = some "A" ∧
    lookupA "A" stC1.client_keys = some "KEYA" ∧
    lookupA "r1" stC1.chat_rooms = some ["A", "B"] := by
  exact ⟨rfl, rfl, rfl, rfl, rfl⟩

/-- Claim C1 (amended): registering a second transport handle for an
identity with a live session sends the prior handle a `force_disconnect`
notice and then the registration block deadlocks awaiting the
non-reentrant lock it already holds: no teardown of the prior handle
happens at all — the server state is left exactly as it was, with the
prior handle still in both registry maps, still in every room and still
in the key store — the prior socket is never closed, and the new handle
never becomes active. -/
theorem c1_takeover (st : ServerState) (n : String) (ws old : Nat)
    (hold : lookupA n st.nickname_to_ws = some old) (hne : ¬ old = ws) :
    register_ws st n ws =
      StepOutcome.deadlocked st
        [(old, Envelope.forceDisconnect "Connessione concorrente")] :=
  register_ws_eq_takeover st n ws old hold hne

theorem c1_takeover_witness :
    (lookupA "A" stC1.nickname_to_ws = some 1 ∧ (¬ (1 : Nat) = 3)) ∧
    register_ws stC1 "A" 3 =
      StepOutcome.deadlocked stC1
        [(1, Envelope.forceDisconnect "Connessione concorrente")] :=
  ⟨⟨by decide, by decide⟩, c1_takeover stC1 "A" 3 1 (by decide) (by decide)⟩

/-! ## Claim C7 -/

def stC7 : ServerState :=
  { clients := []
    nickname_to_ws := []
    client_keys := []
    chat_rooms := []
    recent_messages := [] }

/-- Claim C7 counterexample: a first frame that fails identification — the
empty (malformed, identity-free) text frame — does not produce an error
notice and does not close the connection: the server fabricates the
fallback identity `user_100`, registers the websocket under it, sends
nothing and closes nothing, so the connection becomes an identified
session rather than transitioning to Closed. -/
theorem c7_counterexample :
    handleFirstFrame stC7 1 (FirstFrame.otherText "") 100 =
      (StepOutcome.completed
        { clients := [(1, "user_100")]
          nickname_to_ws := [("user_100", 1)]
          client_keys := []
          chat_rooms := []
          recent_messages := [] } [] [], "user_100") := by
  decide

/-- Claim C7 (amended): the first-frame phase never sends an `error`
envelope and never closes the connecting websocket, whatever the first
frame is; a frame without a usable identity yields the fabricated
fallback `user_<timestamp>` rather than a rejection.  When the derived
nickname is not already bound to a different live socket, registration
completes and the connection becomes an identified session (the websocket
is registered in `clients` under the session's nickname); when it is so
bound, the handler deadlocks after sending `force_disconnect` to the
prior socket, leaving the state untouched — still no error notice and no
close of the connecting socket, but no identified session either. -/
theorem c7_first_frame_no_reject (st : ServerState) (ws : Nat) (first : FirstFrame)
    (now : Nat) :
    (∀ q ∈ ((handleFirstFrame st ws first now).1).sends, ((q.2).isError) = false) ∧
    ws ∉ ((handleFirstFrame st ws first now).1).closes ∧
    (∀ st1 sends1 closes1,
      (handleFirstFrame st ws first now).1 = StepOutcome.completed st1 sends1 closes1 →
      lookupA ws st1.clients = some (handleFirstFrame st ws first now).2) ∧
    (∀ st1 sends1,
      (handleFirstFrame st ws first now).1 = StepOutcome.deadlocked st1 sends1 →
      st1 = st) := by
  cases first with
  | connectCmd nickOpt chats =>
    unfold handleFirstFrame
    dsimp only
    rcases register_ws_spec st (firstFrameNick (FirstFrame.connectCmd nickOpt chats) now) ws
      with ⟨old, heq⟩ | ⟨st1, heq, hcl⟩ <;> rw [heq] <;> dsimp only
    · refine ⟨?_, ?_, ?_, ?_⟩
      · intro q hq
        dsimp only [StepOutcome.sends] at hq
        rcases List.mem_singleton.mp hq with h
        rw [h]
        rfl
      · dsimp only [StepOutcome.closes]
        exact List.not_mem_nil ws
      · intro st2 sends2 closes2 h
        exact StepOutcome.noConfusion h
      · intro st2 sends2 h
        injection h with h1 h2
        exact h1.symm
    · refine ⟨?_, ?_, ?_, ?_⟩
      · intro q hq
        dsimp only [StepOutcome.sends] at hq
        rcases List.mem_append.mp hq with h | h
        · exact absurd h (List.not_mem_nil q)
        · exact handle_connect_cmd_sends_not_error _ _ ws chats q h
      · dsimp only [StepOutcome.closes]
        exact List.not_mem_nil ws
      · intro st2 sends2 closes2 h
        injection h with h1 h2 h3
        rw [← h1, handle_connect_cmd_clients]
        exact hcl
      · intro st2 sends2 h
        exact StepOutcome.noConfusion h
  | otherText s =>
    unfold handleFirstFrame
    dsimp only
    refine ⟨register_ws_sends_not_error st _ ws, ?_, ?_, ?_⟩
    · rw [register_ws_closes_nil]
      exact List.not_mem_nil ws
    · intro st1 sends1 closes1 h
      rcases register_ws_spec st (firstFrameNick (FirstFrame.otherText s) now) ws
        with ⟨old, heq⟩ | ⟨st2, heq, hcl⟩
      · rw [heq] at h
        exact StepOutcome.noConfusion h
      · rw [heq] at h
        injection h with h1 h2 h3
        rw [← h1]
        exact hcl
    · intro st1 sends1 h
      rcases register_ws_spec st (firstFrameNick (FirstFrame.otherText s) now) ws
        with ⟨old, heq⟩ | ⟨st2, heq, hcl⟩
      · rw [heq] at h
        injection h with h1 h2
        exact h1.symm
      · rw [heq] at h
        exact StepOutcome.noConfusion h
  | otherBinary =>
    unfold handleFirstFrame
    dsimp only
    refine ⟨register_ws_sends_not_error st _ ws, ?_, ?_, ?_⟩
    · rw [register_ws_closes_nil]
      exact List.not_mem_nil ws
    · intro st1 sends1 closes1 h
      rcases register_ws_spec st (firstFrameNick FirstFrame.otherBinary now) ws
        with ⟨old, heq⟩ | ⟨st2, heq, hcl⟩
      · rw [heq] at h
        exact StepOutcome.noConfusion h
      · rw [heq] at h
        injection h with h1 h2 h3
        rw [← h1]
        exact hcl
    · intro st1 sends1 h
      rcases register_ws_spec st (firstFrameNick FirstFrame.otherBinary now) ws
        with ⟨old, heq⟩ | ⟨st2, heq, hcl⟩
      · rw [heq] at h
        injection h with h1 h2
        exact h1.symm
      · rw [heq] at h
        exact StepOutcome.noConfusion h

/-! ## Claim C8 -/

def stC8 : ServerState :=
  { clients := [(1, "A"), (2, "B")]
    nickname_to_ws := [("A", 1), ("B", 2)]
    client_keys := []
    chat_rooms := [("r1", ["A", "B"])]
    recent_messages := [] }

/-- Claim C8 counterexample: peer "B" (websocket 2) fails all three send
attempts while a message from "A" is relayed, yet afterwards "B" is still
registered in `nickname_to_ws` and still a member of the room: exhausting
the retries does not trigger any cascade teardown of the target — the
failed send result is simply discarded. -/
theorem c8_counterexample :
    safe_send (fun _ => false) = (false, 3) ∧
    (handle_message_cmd_result stC8 "A" (some "r1") (some "x") 0
      (fun w _ => !(w == 2))).2 = [(2, Envelope.chatMsg "r1" "x", false)] ∧
    lookupA "B" ((handle_message_cmd_result stC8 "A" (some "r1") (some "x") 0
      (fun w _ => !(w == 2))).1).nickname_to_ws = some 2 ∧
    "B" ∈ membersOf ((handle_message_cmd_result stC8 "A" (some "r1") (some "x") 0
      (fun w _ => !(w == 2))).1) "r1" := by
  refine ⟨rfl, rfl, rfl, ?_⟩
  decide

/-- Claim C8 (amended): each per-target send makes at most three attempts;
the list of targets a broadcast attempts is independent of the per-target
transport outcomes (so one target's failure never suppresses delivery to
the others); and the server state produced by message handling does not
depend on the send outcomes at all — in particular an unreachable target
is not removed. -/
theorem c8_bounded_retry_isolation (f : Nat → Bool) (st : ServerState) (c : String)
    (p : Envelope) (e : Option String) (ok : Nat → Nat → Bool) (n : String)
    (cid cont : Option String) (now : Nat) :
    (safe_send f).2 ≤ 3 ∧
    (broadcast_to_chat_result st c p e ok).map (fun t => (t.1, t.2.1)) =
      broadcast_to_chat st c p e ∧
    (handle_message_cmd_result st n cid cont now ok).1 =
      (handle_message_cmd st n cid cont now).1 :=
  ⟨safe_send_attempts_le f, broadcast_result_go_proj _ p e ok _,
   handle_message_cmd_result_state st n cid cont now ok⟩
